import Mathlib

/-!
Tiered filter-unit block of the LevelDB fork (table/unit_handle_block.cc)

A shallow embedding of `UnitHandleBlockBuilder` and `UnitHandleBlockReader`.

Conventions of the embedding
* a byte is a `Fin 256`, a byte string (`std::string`, `Slice`) a list of bytes;
* `uint32_t` / `uint64_t` / `size_t` values are natural numbers, reduced
  `% 2^32` / `% 2^64` wherever the C++ arithmetic can wrap (`size_t` is 64 bit);
* `int` values are integers; the narrowing cast of the reader is `toInt32`, and the two
  places where the source computes with `int` operands that can leave the range of the type
  (the guard of `LoadUnits`, `index * 4` in `ReturnBlockHandle`) use the 32-bit operations
  `addInt32` and `mulInt32`;
* a C++ object with mutable members is a structure, a member function a
  function from the old object to its result and the new object;
* a pointer into the borrowed buffer `data_` is an offset into the list; a read
  that leaves the buffer has no defined behaviour in C++ and is `none` here.
-/

namespace leveldb

/-! ## Bytes, status values and the fixed-width codec -/

abbrev Byte := Fin 256

abbrev Bytes := List Byte

/-- Conversion of an unsigned value to `uint8_t` (keeps the low eight bits). -/
def byte (n : Nat) : Byte := ⟨n % 256, Nat.mod_lt n (by decide)⟩

/-- Modelled from the spec: `leveldb::Status` (include/leveldb/status.h is not among the
sources): the OK value and the error kinds named in the error-handling section. -/
inductive Status where
  | OK : Status
  | NotFound : String → Status
  | Corruption : String → Status
  | NotSupported : String → Status
  | InvalidArgument : String → Status
  | IOError : String → Status
deriving DecidableEq, Repr

/-- The `Status::ok()` test. -/
def Status.ok : Status → Bool
  | Status.OK => true
  | _ => false

/-- Conversion of a `size_t` value to `int`: reduce to 32 bits, read as two's complement. -/
def toInt32 (x : Nat) : Int :=
  if x % 2 ^ 32 < 2 ^ 31 then ((x % 2 ^ 32 : Nat) : Int) else ((x % 2 ^ 32 : Nat) : Int) - 2 ^ 32

/-- Reduction of an integer to the range of `int`, 32 bits in two's complement. -/
def wrapInt32 (x : Int) : Int := (x + 2 ^ 31) % 2 ^ 32 - 2 ^ 31

/-- The sum `a + b` of two `int` values as the compiled code computes it: a sum that leaves
the range of `int` wraps to 32 bits (the C++ standard leaves that overflow undefined).
Integers outside the range of `int` are no values of the type; their sum is left exact. -/
def addInt32 (a b : Int) : Int :=
  if -(2 ^ 31) ≤ a ∧ ¬ 2 ^ 31 ≤ a ∧ -(2 ^ 31) ≤ b ∧ ¬ 2 ^ 31 ≤ b then wrapInt32 (a + b) else a + b

/-- The product `a * b` of two `int` values as the compiled code computes it: a product that
leaves the range of `int` wraps to 32 bits (the C++ standard leaves that overflow undefined).
Integers outside the range of `int` are no values of the type; their product is left exact. -/
def mulInt32 (a b : Int) : Int :=
  if -(2 ^ 31) ≤ a ∧ ¬ 2 ^ 31 ≤ a ∧ -(2 ^ 31) ≤ b ∧ ¬ 2 ^ 31 ≤ b then wrapInt32 (a * b) else a * b

/-- Modelled from the spec: `EncodeFixed32` of util/coding.h (not among the sources), the
32-bit little-endian field of the byte layout. -/
def EncodeFixed32 (value : Nat) : Bytes :=
  [byte value, byte (value / 2 ^ 8), byte (value / 2 ^ 16), byte (value / 2 ^ 24)]

/-- Modelled from the spec: `EncodeFixed64` of util/coding.h (not among the sources), the
64-bit little-endian field of the footer. -/
def EncodeFixed64 (value : Nat) : Bytes :=
  [byte value, byte (value / 2 ^ 8), byte (value / 2 ^ 16), byte (value / 2 ^ 24),
   byte (value / 2 ^ 32), byte (value / 2 ^ 40), byte (value / 2 ^ 48), byte (value / 2 ^ 56)]

/-- Modelled from the spec: `PutFixed32(std::string* dst, uint32_t value)`. -/
def PutFixed32 (dst : Bytes) (value : Nat) : Bytes := dst ++ EncodeFixed32 value

/-- Modelled from the spec: `PutFixed64(std::string* dst, uint64_t value)`. -/
def PutFixed64 (dst : Bytes) (value : Nat) : Bytes := dst ++ EncodeFixed64 value

/-- Modelled from the spec: `DecodeFixed32(const char* ptr)`; `ptr` is the rest of the
buffer from the pointer on, `none` when fewer than four bytes are left. -/
def DecodeFixed32 (ptr : Bytes) : Option Nat :=
  match ptr with
  | b0 :: b1 :: b2 :: b3 :: _ =>
    some (b0.val + b1.val * 2 ^ 8 + b2.val * 2 ^ 16 + b3.val * 2 ^ 24)
  | _ => none

/-- Modelled from the spec: `DecodeFixed64(const char* ptr)`; `none` when fewer than eight
bytes are left. -/
def DecodeFixed64 (ptr : Bytes) : Option Nat :=
  match ptr with
  | b0 :: b1 :: b2 :: b3 :: b4 :: b5 :: b6 :: b7 :: _ =>
    some (b0.val + b1.val * 2 ^ 8 + b2.val * 2 ^ 16 + b3.val * 2 ^ 24
          + b4.val * 2 ^ 32 + b5.val * 2 ^ 40 + b6.val * 2 ^ 48 + b7.val * 2 ^ 56)
  | _ => none

/-- Pointer arithmetic `data + off` on a buffer: the bytes from `off` on, `none` when the
pointer leaves the buffer. -/
def ptrAt (data : Bytes) (off : Int) : Option Bytes :=
  if 0 ≤ off ∧ off ≤ (data.length : Int) then some (data.drop off.toNat) else none

/-- The byte view `Slice(data + start, len)`; `none` when it is not inside the buffer. -/
def sliceAt (data : Bytes) (start len : Nat) : Option Bytes :=
  if start + len ≤ data.length then some ((data.drop start).take len) else none

/-! ## Variable-length integers and block handles (table/format.h) -/

/-- The loop of `EncodeVarint64`; `fuel` bounds the number of continuation bytes
(nine are enough for a 64-bit value). -/
def EncodeVarint64.go : Nat → Nat → Bytes
  | 0, v => [byte v]
  | fuel + 1, v =>
    if v ≥ 128 then byte (v % 128 + 128) :: EncodeVarint64.go fuel (v / 128) else [byte v]

/-- Modelled from the spec: `EncodeVarint64` of util/coding.cc (not among the sources),
seven payload bits per byte, least significant group first, high bit = continuation. -/
def EncodeVarint64 (v : Nat) : Bytes := EncodeVarint64.go 9 (v % 2 ^ 64)

/-- Modelled from the spec: `GetVarint64Ptr` of util/coding.cc (not among the sources):
reads groups while `shift <= 63` and input is left; returns the value and the rest. -/
def GetVarint64Ptr : Nat → Nat → Bytes → Option (Nat × Bytes)
  | _, _, [] => none
  | shift, result, b :: p =>
    if shift > 63 then none
    else if b.val ≥ 128 then
      GetVarint64Ptr (shift + 7) (result + ((b.val % 128) * 2 ^ shift) % 2 ^ 64) p
    else some (result + (b.val * 2 ^ shift) % 2 ^ 64, p)

/-- Modelled from the spec: `GetVarint64(Slice* input, uint64_t* value)`. -/
def GetVarint64 (input : Bytes) : Option (Nat × Bytes) := GetVarint64Ptr 0 0 input

/-- The location record `BlockHandle` of table/format.h: offset and size of a block. -/
structure BlockHandle where
  offset_ : Nat
  size_ : Nat
deriving DecidableEq, Repr

/-- The default-constructed handle: both fields are `~static_cast<uint64_t>(0)`. -/
def BlockHandle.init : BlockHandle := ⟨2 ^ 64 - 1, 2 ^ 64 - 1⟩

/-- Modelled from the spec: `BlockHandle::EncodeTo(std::string* dst)` of table/format.cc
(not among the sources): the two fields as varint64, appended to `dst`. -/
def BlockHandle.EncodeTo (h : BlockHandle) (dst : Bytes) : Bytes :=
  dst ++ EncodeVarint64 h.offset_ ++ EncodeVarint64 h.size_

/-- Modelled from the spec: `BlockHandle::DecodeFrom(Slice* input)` of table/format.cc
(not among the sources); a field is only overwritten when its varint was read. -/
def BlockHandle.DecodeFrom (h : BlockHandle) (input : Bytes) : Status × BlockHandle :=
  match GetVarint64 input with
  | none => (Status.Corruption "bad block handle", h)
  | some (off, rest) =>
    match GetVarint64 rest with
    | none => (Status.Corruption "bad block handle", { h with offset_ := off })
    | some (sz, _) => (Status.OK, { offset_ := off, size_ := sz })

/-! ## Checksums (util/crc32c.h) -/

namespace crc32c

/-- One bit of the reflected CRC-32C division (polynomial 0x82F63B78). -/
def bitStep (c : Nat) : Nat := if c % 2 = 1 then (c / 2) ^^^ 0x82F63B78 else c / 2

/-- One input byte: `table0_[(l ^ b) & 0xff] ^ (l >> 8)` with the table entry computed. -/
def byteStep (l : Nat) (b : Byte) : Nat :=
  Nat.iterate bitStep 8 ((l ^^^ b.val) % 256) ^^^ (l / 256)

/-- Modelled from the spec: `crc32c::Extend(init_crc, data, n)` of util/crc32c.cc (not among
the sources): the CRC-32C of `A ++ data` when `init_crc` is the CRC-32C of `A`. -/
def Extend (init_crc : Nat) (data : Bytes) : Nat :=
  data.foldl byteStep (init_crc ^^^ 0xffffffff) ^^^ 0xffffffff

/-- Modelled from the spec: `crc32c::Value(data, n)`. -/
def Value (data : Bytes) : Nat := Extend 0 data

def kMaskDelta : Nat := 0xa282ead8

/-- Modelled from the spec: `crc32c::Mask`: rotate right by 15 bits and add a constant. -/
def Mask (crc : Nat) : Nat := (crc / 2 ^ 15 + (crc % 2 ^ 15) * 2 ^ 17 + kMaskDelta) % 2 ^ 32

/-- Modelled from the spec: `crc32c::Unmask`, the inverse of `Mask`. -/
def Unmask (masked_crc : Nat) : Nat :=
  ((masked_crc + 2 ^ 32 - kMaskDelta) % 2 ^ 32) / 2 ^ 17
    + (((masked_crc + 2 ^ 32 - kMaskDelta) % 2 ^ 32) % 2 ^ 17) * 2 ^ 15

end crc32c

/-! ## Collaborators: filter primitive, files, block reader -/

/-- The filter primitive `FilterPolicy` of this fork: `CreateFilter(keys, n, dst, index)`
gives the bytes it appends to `dst`; `KeyMayMatch(key, filter, index)`. Both are
deterministic, as the spec requires. -/
structure FilterPolicy where
  CreateFilter : List Bytes → Int → Int → Bytes
  KeyMayMatch : Bytes → Bytes → Int → Bool

/-- The sink `WritableFile`. `contents_` is what has been appended (the `StringSink` of
table/filter_block_test.cc); `quota_`, when present, is the number of `Append` calls
that still succeed, a failing call stores nothing; `syncs_` counts `Sync` calls. -/
structure WritableFile where
  contents_ : Bytes
  quota_ : Option Nat
  syncs_ : Nat
deriving DecidableEq, Repr

/-- The `StringSink` of table/filter_block_test.cc: every `Append` succeeds. -/
def StringSink (contents : Bytes) : WritableFile := ⟨contents, none, 0⟩

def WritableFile.Append (f : WritableFile) (data : Bytes) : Status × WritableFile :=
  match f.quota_ with
  | none => (Status.OK, { f with contents_ := f.contents_ ++ data })
  | some 0 => (Status.IOError "append failed", f)
  | some (q + 1) => (Status.OK, { f with contents_ := f.contents_ ++ data, quota_ := some q })

def WritableFile.Sync (f : WritableFile) : Status × WritableFile :=
  (Status.OK, { f with syncs_ := f.syncs_ + 1 })

/-- The file `RandomAccessFile`, as the `StringSource` of table/filter_block_test.cc;
`reads_` records the `(offset, n)` of every `Read` call, oldest first. -/
structure RandomAccessFile where
  contents_ : Bytes
  reads_ : List (Nat × Nat)
deriving DecidableEq, Repr

def StringSource (contents : Bytes) : RandomAccessFile := ⟨contents, []⟩

/-- The read `StringSource::Read(offset, n, result, scratch)`. -/
def RandomAccessFile.Read (f : RandomAccessFile) (offset n : Nat) :
    Status × Bytes × RandomAccessFile :=
  let f1 : RandomAccessFile := { f with reads_ := f.reads_ ++ [(offset, n)] }
  if offset ≥ f.contents_.length then (Status.InvalidArgument "invalid Read offset", [], f1)
  else
    let n := if (offset + n) % 2 ^ 64 > f.contents_.length then f.contents_.length - offset else n
    (Status.OK, (f.contents_.drop offset).take n, f1)

/-- The fields of `ReadOptions` that the block reader looks at. -/
structure ReadOptions where
  verify_checksums : Bool
  fill_cache : Bool
deriving DecidableEq, Repr

/-- The platform decompressor `port::Snappy_Uncompress`, a collaborator of `ReadBlock`. -/
structure Port where
  Snappy_Uncompress : Bytes → Option Bytes

structure BlockContents where
  data : Bytes
  cachable : Bool
  heap_allocated : Bool
deriving DecidableEq, Repr

def BlockContents.init : BlockContents := ⟨[], false, false⟩

def kBlockTrailerSize : Nat := 5

def kNoCompression : Nat := 0

def kSnappyCompression : Nat := 1

/-- Modelled from the spec: the durable read-block helper `ReadBlock` of table/format.cc
(not among the sources): reads `size + kBlockTrailerSize` bytes at the handle, fails with a
corruption error on a short read or (when asked to verify) a checksum mismatch, and
decompresses per tag. `none`: the requested length does not fit a `size_t`. -/
def ReadBlock (port : Port) (file : RandomAccessFile) (options : ReadOptions)
    (handle : BlockHandle) : Option (Status × BlockContents × RandomAccessFile) :=
  let n := handle.size_
  if n + kBlockTrailerSize ≥ 2 ^ 64 then none
  else
    match file.Read handle.offset_ (n + kBlockTrailerSize) with
    | (s, contents, file1) =>
      if !s.ok then some (s, BlockContents.init, file1)
      else if contents.length ≠ n + kBlockTrailerSize then
        some (Status.Corruption "truncated block read", BlockContents.init, file1)
      else if options.verify_checksums
          && !((DecodeFixed32 (contents.drop (n + 1))).map crc32c.Unmask
                == some (crc32c.Value (contents.take (n + 1)))) then
        some (Status.Corruption "block checksum mismatch", BlockContents.init, file1)
      else
        match (contents.drop n).head? with
        | none => none
        | some tag =>
          if tag.val = kNoCompression then
            some (Status.OK, ⟨contents.take n, true, true⟩, file1)
          else if tag.val = kSnappyCompression then
            match port.Snappy_Uncompress (contents.take n) with
            | none =>
              some (Status.Corruption "corrupted compressed block contents",
                    BlockContents.init, file1)
            | some u => some (Status.OK, ⟨u, true, true⟩, file1)
          else some (Status.Corruption "bad block contents", BlockContents.init, file1)

/-! ## UnitHandleBlockBuilder -/

/-- The members of `UnitHandleBlockBuilder`; `offset_` is the value of the shared counter
the C++ member points to. -/
structure UnitHandleBlockBuilder where
  policy_ : FilterPolicy
  file_ : WritableFile
  offset_ : Nat
  expiredTime_ : Nat
  access_frequencey_ : Nat
  filter_unit_number_ : Int
  result_ : Bytes
  handle_offset_ : List Nat
  block_handle_string_ : Bytes
  blockHandle_ : BlockHandle
  bitmap_ : Bytes

/-- The constructor `UnitHandleBlockBuilder::UnitHandleBlockBuilder`: the six arguments,
every other member default-constructed. -/
def UnitHandleBlockBuilder.new (policy : FilterPolicy) (file : WritableFile)
    (offset expiredTime access_frequnecy : Nat) (filter_unit_number : Int) :
    UnitHandleBlockBuilder :=
  { policy_ := policy, file_ := file, offset_ := offset, expiredTime_ := expiredTime,
    access_frequencey_ := access_frequnecy, filter_unit_number_ := filter_unit_number,
    result_ := [], handle_offset_ := [], block_handle_string_ := [],
    blockHandle_ := BlockHandle.init, bitmap_ := [] }

/-- Member `WriteRawBlock(block_contents, type, handle)`: the status, the handle written through
the pointer, and the builder (sink and shared offset) afterwards. `set_offset` and
`set_size` take a `uint64_t`. -/
def UnitHandleBlockBuilder.WriteRawBlock (b : UnitHandleBlockBuilder) (block_contents : Bytes)
    (type : Nat) (_handle : BlockHandle) : Status × BlockHandle × UnitHandleBlockBuilder :=
  let handle : BlockHandle :=
    { offset_ := b.offset_ % 2 ^ 64, size_ := block_contents.length % 2 ^ 64 }
  match b.file_.Append block_contents with
  | (s, file1) =>
    if s.ok then
      let crc := crc32c.Value block_contents
      let crc := crc32c.Extend crc [byte type]
      let trailer := byte type :: EncodeFixed32 (crc32c.Mask crc)
      match file1.Append trailer with
      | (s, file2) =>
        if s.ok then
          (s, handle, { b with file_ := file2,
                               offset_ := (b.offset_ + (block_contents.length + kBlockTrailerSize))
                                            % 2 ^ 64 })
        else (s, handle, { b with file_ := file2 })
    else (s, handle, { b with file_ := file1 })

/-- One iteration, for unit `i`, of the loop `for (int i = 0; i < filter_unit_number_; i++)`
of `WriteBitmap`; the status of `WriteRawBlock` is not looked at. -/
def UnitHandleBlockBuilder.WriteBitmap.body (keys : List Bytes) (i : Int)
    (b : UnitHandleBlockBuilder) : UnitHandleBlockBuilder :=
  let bitmap := b.bitmap_ ++ b.policy_.CreateFilter keys (toInt32 keys.length) i
  match UnitHandleBlockBuilder.WriteRawBlock { b with bitmap_ := bitmap } bitmap kNoCompression
      b.blockHandle_ with
  | (_, handle, b1) =>
    let b2 := { b1 with blockHandle_ := handle,
                        handle_offset_ := b1.handle_offset_ ++ [b1.result_.length % 2 ^ 32] }
    let block_handle_string := handle.EncodeTo b2.block_handle_string_
    { b2 with result_ := b2.result_ ++ block_handle_string,
              block_handle_string_ := [], bitmap_ := [] }

/-- The loop of `WriteBitmap`, run for the `todo` remaining values of `i`. -/
def UnitHandleBlockBuilder.WriteBitmap.loop (keys : List Bytes) :
    Nat → Int → UnitHandleBlockBuilder → UnitHandleBlockBuilder
  | 0, _, b => b
  | todo + 1, i, b =>
    UnitHandleBlockBuilder.WriteBitmap.loop keys todo (i + 1)
      (UnitHandleBlockBuilder.WriteBitmap.body keys i b)

/-- Member `WriteBitmap(keys)`. -/
def UnitHandleBlockBuilder.WriteBitmap (b : UnitHandleBlockBuilder) (keys : List Bytes) :
    UnitHandleBlockBuilder :=
  if keys.length = 0 then b
  else
    let b1 := UnitHandleBlockBuilder.WriteBitmap.loop keys b.filter_unit_number_.toNat 0 b
    { b1 with file_ := b1.file_.Sync.2 }

/-- Member `Finish(keys)`: the returned string and the builder afterwards. -/
def UnitHandleBlockBuilder.Finish (b : UnitHandleBlockBuilder) (keys : List Bytes) :
    Bytes × UnitHandleBlockBuilder :=
  let b1 := b.WriteBitmap keys
  let array_offset := b1.result_.length % 2 ^ 32
  let result := b1.handle_offset_.foldl PutFixed32 b1.result_
  let result := PutFixed32 result array_offset
  let result := PutFixed64 result b1.expiredTime_
  let result := PutFixed64 result b1.access_frequencey_
  (result, { b1 with result_ := result })

/-! ## UnitHandleBlockReader -/

/-- The members of `UnitHandleBlockReader`; `data_` is the borrowed buffer. -/
structure UnitHandleBlockReader where
  policy_ : FilterPolicy
  file_ : RandomAccessFile
  options_ : ReadOptions
  data_ : Bytes
  array_offset_ : Nat
  bitmaps_ : List Bytes
  expiredTime_ : Nat
  access_frequnecy_ : Nat
  filter_unit_loaded_number_ : Int
  filter_unit_number_ : Int
  blockContents_ : BlockContents
  blockHandle_ : BlockHandle

/-- Member `ReturnBlockHandle(index)`; `index * 4` is a product of `int`s, added to the
pointer `data_ + array_offset_`; `none` when one of its reads leaves the buffer. -/
def UnitHandleBlockReader.ReturnBlockHandle (r : UnitHandleBlockReader) (index : Int) :
    Option BlockHandle :=
  match (ptrAt r.data_ ((r.array_offset_ : Int) + mulInt32 index 4)).bind DecodeFixed32,
        (ptrAt r.data_ ((r.array_offset_ : Int) + mulInt32 index 4 + 4)).bind DecodeFixed32 with
  | some start, some stop =>
    match sliceAt r.data_ start ((stop + 2 ^ 32 - start) % 2 ^ 32) with
    | some handleContent => some (BlockHandle.init.DecodeFrom handleContent).2
    | none => none
  | _, _ => none

/-- The loop `for (int i = 0; i < number; i++)` of `LoadUnits`, run for the `todo` remaining
values of `i`. -/
def UnitHandleBlockReader.LoadUnits.loop (port : Port) :
    Nat → Int → UnitHandleBlockReader → Option (Status × UnitHandleBlockReader)
  | 0, _, r => some (Status.OK, r)
  | todo + 1, i, r =>
    match r.ReturnBlockHandle i with
    | none => none
    | some handle =>
      match ReadBlock port r.file_ r.options_ handle with
      | none => none
      | some (s, contents, file1) =>
        if s.ok then
          UnitHandleBlockReader.LoadUnits.loop port todo (i + 1)
            { r with blockHandle_ := handle, blockContents_ := contents, file_ := file1,
                     bitmaps_ := r.bitmaps_ ++ [contents.data],
                     filter_unit_loaded_number_ := r.filter_unit_loaded_number_ + 1 }
        else
          some (s, { r with blockHandle_ := handle, blockContents_ := contents, file_ := file1 })

/-- Member `LoadUnits(number)`; the sum in its guard is a sum of `int`s. -/
def UnitHandleBlockReader.LoadUnits (port : Port) (r : UnitHandleBlockReader) (number : Int) :
    Option (Status × UnitHandleBlockReader) :=
  if addInt32 r.filter_unit_loaded_number_ number > r.filter_unit_number_ then
    some (Status.Corruption "load too many units", r)
  else UnitHandleBlockReader.LoadUnits.loop port number.toNat 0 r

/-- The constructor `UnitHandleBlockReader::UnitHandleBlockReader`; the status of its `LoadUnits` call is dropped, as in the source.
`none`: the footer reads leave the buffer (fewer than 20 bytes), or the load does. -/
def UnitHandleBlockReader.new (port : Port) (policy : FilterPolicy)
    (file : RandomAccessFile) (options : ReadOptions) (contents : Bytes) (loaded_number : Int) :
    Option UnitHandleBlockReader :=
  let n : Int := contents.length
  match (ptrAt contents (n - 8)).bind DecodeFixed64,
        (ptrAt contents (n - 8 - 8)).bind DecodeFixed64,
        (ptrAt contents (n - 8 - 8 - 4)).bind DecodeFixed32 with
  | some access_frequnecy, some expiredTime, some array_offset =>
    let r : UnitHandleBlockReader :=
      { policy_ := policy, file_ := file, options_ := options, data_ := contents,
        array_offset_ := array_offset, bitmaps_ := [], expiredTime_ := expiredTime,
        access_frequnecy_ := access_frequnecy, filter_unit_loaded_number_ := 0,
        filter_unit_number_ := toInt32 (((n - 8 - 8 - 4 - (array_offset : Int)) % 2 ^ 64) / 4).toNat,
        blockContents_ := BlockContents.init, blockHandle_ := BlockHandle.init }
    (UnitHandleBlockReader.LoadUnits port r loaded_number).map Prod.snd
  | _, _, _ => none

/-- The loop `for (int i = 0; i < number; i++)` of `EvictUnits`. -/
def UnitHandleBlockReader.EvictUnits.loop : Nat → UnitHandleBlockReader → UnitHandleBlockReader
  | 0, r => r
  | todo + 1, r =>
    UnitHandleBlockReader.EvictUnits.loop todo
      { r with bitmaps_ := r.bitmaps_.dropLast,
               filter_unit_loaded_number_ := r.filter_unit_loaded_number_ - 1 }

/-- Member `EvictUnits(number)`; the comparison converts `number` to `size_t`. -/
def UnitHandleBlockReader.EvictUnits (r : UnitHandleBlockReader) (number : Int) :
    UnitHandleBlockReader :=
  if (r.bitmaps_.length : Int) > number % 2 ^ 64 then
    UnitHandleBlockReader.EvictUnits.loop number.toNat r
  else { r with bitmaps_ := [], filter_unit_loaded_number_ := 0 }

/-- Member `UpdateCurrentTime(current_time)`; `lifeTime` is the lifetime constant, whose
declaration is not among the sources. -/
def UnitHandleBlockReader.UpdateCurrentTime (lifeTime : Nat) (r : UnitHandleBlockReader)
    (current_time : Nat) : UnitHandleBlockReader :=
  { r with expiredTime_ := (current_time + lifeTime) % 2 ^ 64 }

/-- Member `IsCold(current_time) const`. -/
def UnitHandleBlockReader.IsCold (r : UnitHandleBlockReader) (current_time : Nat) : Bool :=
  decide (current_time ≥ r.expiredTime_)

/-- The loop `for (int i = 0; i < bitmaps_.size(); i++)` of `KeyMayMatch` over the bitmaps
from position `i` on. -/
def UnitHandleBlockReader.KeyMayMatch.loop (policy : FilterPolicy) (key : Bytes) :
    List Bytes → Int → Bool
  | [], _ => true
  | bitmap :: rest, i =>
    if !policy.KeyMayMatch key bitmap i then false
    else UnitHandleBlockReader.KeyMayMatch.loop policy key rest (i + 1)

/-- Member `KeyMayMatch(key)`: the answer and the reader afterwards. -/
def UnitHandleBlockReader.KeyMayMatch (r : UnitHandleBlockReader) (key : Bytes) :
    Bool × UnitHandleBlockReader :=
  let r1 := { r with access_frequnecy_ := (r.access_frequnecy_ + 1) % 2 ^ 64 }
  if r1.bitmaps_.isEmpty then (false, r1)
  else (UnitHandleBlockReader.KeyMayMatch.loop r1.policy_ key r1.bitmaps_ 0, r1)

/-- Member `ReturnLoadedUnitsNumber() const`. -/
def UnitHandleBlockReader.ReturnLoadedUnitsNumber (r : UnitHandleBlockReader) : Int :=
  r.filter_unit_loaded_number_

/-- Member `ReturnUnitsNumber() const`. -/
def UnitHandleBlockReader.ReturnUnitsNumber (r : UnitHandleBlockReader) : Int :=
  r.filter_unit_number_

/-! ## Descriptions of the byte layout, used in the statements -/

/-- The bitmap of unit `i`: what `WriteBitmap` obtains from `CreateFilter` for a fresh
`bitmap_` and hands to `WriteRawBlock`. -/
def unitBitmap (policy : FilterPolicy) (keys : List Bytes) (i : Int) : Bytes :=
  policy.CreateFilter keys (toInt32 keys.length) i

/-- The bytes of one raw block as `WriteRawBlock` appends them when both appends succeed:
payload, compression tag, masked CRC-32C of payload and tag. -/
def rawBlock (block_contents : Bytes) (type : Nat) : Bytes :=
  block_contents ++ byte type ::
    EncodeFixed32 (crc32c.Mask (crc32c.Extend (crc32c.Value block_contents) [byte type]))

/-- The handles `WriteRawBlock` produces in the successive iterations of the loop of
`WriteBitmap` (the value of `blockHandle_` after each iteration). -/
def UnitHandleBlockBuilder.WriteBitmap.handles (keys : List Bytes) :
    Nat → Int → UnitHandleBlockBuilder → List BlockHandle
  | 0, _, _ => []
  | todo + 1, i, b =>
    (UnitHandleBlockBuilder.WriteBitmap.body keys i b).blockHandle_ ::
      UnitHandleBlockBuilder.WriteBitmap.handles keys todo (i + 1)
        (UnitHandleBlockBuilder.WriteBitmap.body keys i b)

/-- The handles of the units written by `Finish(keys)` on the builder `b`. -/
def UnitHandleBlockBuilder.unitHandles (b : UnitHandleBlockBuilder) (keys : List Bytes) :
    List BlockHandle :=
  if keys.length = 0 then []
  else UnitHandleBlockBuilder.WriteBitmap.handles keys b.filter_unit_number_.toNat 0 b

/-- The encoded location records of a list of handles. -/
def encodeHandles (hs : List BlockHandle) : List Bytes := hs.map (fun h => h.EncodeTo [])

/-- The 32-bit offsets at which consecutive records start, the first one at `start`. -/
def recordOffsets (start : Nat) : List Bytes → List Nat
  | [] => []
  | r :: rs => start % 2 ^ 32 :: recordOffsets (start + r.length) rs

/-- The serialized buffer for the encoded location records `recs`: the records, the
offset of each record, the index-start offset, expiration time, access frequency. -/
def layout (recs : List Bytes) (expiredTime access_frequency : Nat) : Bytes :=
  recs.flatten
    ++ ((recordOffsets 0 recs ++ [recs.flatten.length % 2 ^ 32]).map EncodeFixed32).flatten
    ++ EncodeFixed64 expiredTime ++ EncodeFixed64 access_frequency

/-! ## Test doubles used at concrete inputs -/

/-- A filter primitive in the manner of `TestHashFilter` (table/filter_block_test.cc): one
entry per key, here the length of the key plus the unit index; a key may match when its
entry occurs in the bitmap. -/
def TestLenFilter : FilterPolicy where
  CreateFilter := fun keys _ index => keys.map (fun k => byte (k.length + index.toNat))
  KeyMayMatch := fun key filter index => filter.contains (byte (key.length + index.toNat))

/-- A platform without Snappy support. -/
def NoSnappy : Port := ⟨fun _ => none⟩

/-- The buffer and builder after `Finish` on two keys with two units, an empty `StringSink`
and the shared offset at 0. -/
def sampleFinish : Bytes × UnitHandleBlockBuilder :=
  (UnitHandleBlockBuilder.new TestLenFilter (StringSink []) 0 1000 7 2).Finish [[1, 2, 3], [4]]

/-- A reader over `sampleFinish` and the file its sink holds, with `loaded_number` units
loaded at construction and checksum verification on. -/
def sampleReader (loaded_number : Int) : Option UnitHandleBlockReader :=
  UnitHandleBlockReader.new NoSnappy TestLenFilter (StringSource sampleFinish.2.file_.contents_)
    ⟨true, false⟩ sampleFinish.1 loaded_number

/-- The state of `sampleReader 2`, written out. -/
def sampleLoaded : UnitHandleBlockReader :=
  { policy_ := TestLenFilter,
    file_ := ⟨[3, 1, 0, 169, 30, 128, 153, 4, 2, 0, 214, 158, 160, 17], [(0, 7), (7, 7)]⟩,
    options_ := ⟨true, false⟩,
    data_ := [0, 2, 7, 2, 0, 0, 0, 0, 2, 0, 0, 0, 4, 0, 0, 0, 232, 3, 0, 0, 0, 0, 0, 0,
              7, 0, 0, 0, 0, 0, 0, 0],
    array_offset_ := 4, bitmaps_ := [[3, 1], [4, 2]], expiredTime_ := 1000,
    access_frequnecy_ := 7, filter_unit_loaded_number_ := 2, filter_unit_number_ := 2,
    blockContents_ := ⟨[4, 2], true, true⟩, blockHandle_ := ⟨7, 2⟩ }

/-- The reader state of `sampleReader 0` over a file that holds only the block of unit 0:
the read of unit 1 fails. -/
def sampleTruncated : UnitHandleBlockReader :=
  { policy_ := TestLenFilter,
    file_ := ⟨[3, 1, 0, 169, 30, 128, 153], []⟩,
    options_ := ⟨true, false⟩,
    data_ := [0, 2, 7, 2, 0, 0, 0, 0, 2, 0, 0, 0, 4, 0, 0, 0, 232, 3, 0, 0, 0, 0, 0, 0,
              7, 0, 0, 0, 0, 0, 0, 0],
    array_offset_ := 4, bitmaps_ := [], expiredTime_ := 1000,
    access_frequnecy_ := 7, filter_unit_loaded_number_ := 0, filter_unit_number_ := 2,
    blockContents_ := BlockContents.init, blockHandle_ := BlockHandle.init }

/-- A sink whose every `Append` fails. -/
def failingSink : WritableFile := ⟨[], some 0, 0⟩

/-- The sink lets the next `k` calls of `Append` succeed. -/
def WritableFile.accepts (f : WritableFile) (k : Nat) : Prop :=
  ∀ q, f.quota_ = some q → k ≤ q

/-- The file offset of the block of unit `i` when the blocks of units `0 .. i-1` were
appended from offset `o` on: `o` plus payload and trailer length of each earlier unit. -/
def unitBlockOffset (policy : FilterPolicy) (keys : List Bytes) (o i : Nat) : Nat :=
  o + ((List.range i).map
        (fun j : Nat => (unitBitmap policy keys (j : Int)).length + kBlockTrailerSize)).sum

/-- The outcome of the read that the loop of `LoadUnits` performs for index `i`:
`ReturnBlockHandle(i)`, then `ReadBlock` on the reader's file. -/
def UnitHandleBlockReader.readUnit (port : Port) (r : UnitHandleBlockReader) (i : Int) :
    Option (Status × BlockContents) :=
  (r.ReturnBlockHandle i).bind
    (fun h => (ReadBlock port r.file_ r.options_ h).map (fun x => (x.1, x.2.1)))

/-- The loaded-count invariant: the counter lies between 0 and the unit count and is the
length of the loaded sequence. -/
def UnitHandleBlockReader.LoadedInv (r : UnitHandleBlockReader) : Prop :=
  0 ≤ r.filter_unit_loaded_number_ ∧ r.filter_unit_loaded_number_ ≤ r.filter_unit_number_ ∧
    r.ReturnLoadedUnitsNumber = (r.bitmaps_.length : Int)

/-! ## Facts about one iteration and about the whole loop of `WriteBitmap` -/

/-- What one iteration of the loop of `WriteBitmap` changes. -/
structure BodyFacts (keys : List Bytes) (i : Int) (b b1 : UnitHandleBlockBuilder) : Prop where
  handle : b1.blockHandle_ = ⟨b.offset_ % 2 ^ 64, (unitBitmap b.policy_ keys i).length % 2 ^ 64⟩
  result : b1.result_ = b.result_ ++ b1.blockHandle_.EncodeTo []
  offs : b1.handle_offset_ = b.handle_offset_ ++ [b.result_.length % 2 ^ 32]
  bhs : b1.block_handle_string_ = []
  bitmap : b1.bitmap_ = []
  policy : b1.policy_ = b.policy_
  expired : b1.expiredTime_ = b.expiredTime_
  freq : b1.access_frequencey_ = b.access_frequencey_
  num : b1.filter_unit_number_ = b.filter_unit_number_

/-- What the loop of `WriteBitmap` changes. -/
structure LoopFacts (keys : List Bytes) (todo : Nat) (i : Int) (b b1 : UnitHandleBlockBuilder) :
    Prop where
  result : b1.result_ = b.result_ ++ (encodeHandles (UnitHandleBlockBuilder.WriteBitmap.handles keys todo i b)).flatten
  offs : b1.handle_offset_ = b.handle_offset_
    ++ recordOffsets b.result_.length (encodeHandles (UnitHandleBlockBuilder.WriteBitmap.handles keys todo i b))
  policy : b1.policy_ = b.policy_
  expired : b1.expiredTime_ = b.expiredTime_
  freq : b1.access_frequencey_ = b.access_frequencey_
  num : b1.filter_unit_number_ = b.filter_unit_number_

/-- What `LoadUnits` leaves alone, and how it extends the loaded sequence. -/
structure LoadFrame (r r1 : UnitHandleBlockReader) : Prop where
  policy : r1.policy_ = r.policy_
  options : r1.options_ = r.options_
  data : r1.data_ = r.data_
  array_offset : r1.array_offset_ = r.array_offset_
  expired : r1.expiredTime_ = r.expiredTime_
  freq : r1.access_frequnecy_ = r.access_frequnecy_
  num : r1.filter_unit_number_ = r.filter_unit_number_
  contents : r1.file_.contents_ = r.file_.contents_
  grows : ∃ added : List Bytes, r1.bitmaps_ = r.bitmaps_ ++ added ∧
    r1.filter_unit_loaded_number_ = r.filter_unit_loaded_number_ + (added.length : Int)

/-- The bitmap `bm` is stored as a raw block at the place the handle `h` names. -/
def Stored (contents : Bytes) (h : BlockHandle) (bm : Bytes) : Prop :=
  ∃ pre post, contents = pre ++ rawBlock bm kNoCompression ++ post ∧ pre.length = h.offset_ ∧
    h.size_ = bm.length

/-! # Theorems -/

open UnitHandleBlockBuilder UnitHandleBlockReader

/-! ## The codecs -/


theorem byte_val (n : Nat) : (byte n).val = n % 256 := rfl

theorem wrapInt32_exact (x : Int) (h1 : -(2 ^ 31) ≤ x) (h2 : x < 2 ^ 31) : wrapInt32 x = x := by
  unfold wrapInt32
  omega

theorem addInt32_exact (a b : Int) (h1 : -(2 ^ 31) ≤ a + b) (h2 : a + b < 2 ^ 31) :
    addInt32 a b = a + b := by
  unfold addInt32
  split
  · exact wrapInt32_exact _ h1 h2
  · rfl

theorem addInt32_zero_left (b : Int) : addInt32 0 b = b := by
  unfold addInt32
  split
  · rw [Int.zero_add]; exact wrapInt32_exact _ (by omega) (by omega)
  · exact Int.zero_add b

/-- with a non-negative left operand, a sum below `2^31` is computed exactly -/
theorem addInt32_of_nonneg (a b : Int) (ha : 0 ≤ a) (h : a + b < 2 ^ 31) :
    addInt32 a b = a + b := by
  unfold addInt32
  split
  · exact wrapInt32_exact _ (by omega) h
  · rfl

/-- adding a positive `int`: a wrapped sum lies below the exact one -/
theorem addInt32_le_of_pos (a b c : Int) (hb : 0 < b) (h : a + b ≤ c) : addInt32 a b ≤ c := by
  unfold addInt32 wrapInt32
  split <;> omega

theorem mulInt32_four (i : Nat) (h : i < 2 ^ 29) : mulInt32 (i : Int) 4 = (i : Int) * 4 := by
  unfold mulInt32
  split
  · exact wrapInt32_exact _ (by omega) (by omega)
  · rfl

theorem DecodeFixed32_EncodeFixed32 (v : Nat) (rest : Bytes) :
    DecodeFixed32 (EncodeFixed32 v ++ rest) = some (v % 2 ^ 32) := by
  simp only [EncodeFixed32, DecodeFixed32, List.cons_append, List.nil_append, byte_val,
    Option.some.injEq]
  omega

theorem DecodeFixed64_EncodeFixed64 (v : Nat) (rest : Bytes) :
    DecodeFixed64 (EncodeFixed64 v ++ rest) = some (v % 2 ^ 64) := by
  simp only [EncodeFixed64, DecodeFixed64, List.cons_append, List.nil_append, byte_val,
    Option.some.injEq]
  omega

theorem EncodeFixed32_length (v : Nat) : (EncodeFixed32 v).length = 4 := rfl
theorem EncodeFixed64_length (v : Nat) : (EncodeFixed64 v).length = 8 := rfl

theorem GetVarint64Ptr_go (fuel : Nat) : ∀ (v shift result : Nat) (rest : Bytes),
    v < 2 ^ (7 * (fuel + 1)) → shift + 7 * fuel ≤ 63 → v * 2 ^ shift < 2 ^ 64 →
    GetVarint64Ptr shift result (EncodeVarint64.go fuel v ++ rest)
      = some (result + v * 2 ^ shift, rest) := by
  induction fuel with
  | zero =>
    intro v shift result rest hv hs hb
    have hv : v < 128 := by simpa using hv
    simp only [EncodeVarint64.go, List.cons_append, List.nil_append, GetVarint64Ptr, byte_val]
    have h1 : ¬ shift > 63 := by omega
    have h2 : v % 256 = v := by omega
    have h3 : ¬ v ≥ 128 := by omega
    simp only [h1, h2, h3, if_false, Nat.mod_eq_of_lt hb]
    rfl
  | succ fuel ih =>
    intro v shift result rest hv hs hb
    have h1 : ¬ shift > 63 := by omega
    by_cases hge : v ≥ 128
    · simp only [EncodeVarint64.go, hge, if_true, List.cons_append, GetVarint64Ptr, byte_val, h1,
        if_false]
      have h2 : (v % 128 + 128) % 256 ≥ 128 := by omega
      have h3 : (v % 128 + 128) % 256 % 128 = v % 128 := by omega
      simp only [h2, if_true, h3]
      have hpow : (2:Nat) ^ (shift + 7) = 2 ^ shift * 128 := by rw [pow_add]; norm_num
      have hle : v % 128 * 2 ^ shift ≤ v * 2 ^ shift :=
        Nat.mul_le_mul_right _ (Nat.mod_le _ _)
      have hdm : v = 128 * (v / 128) + v % 128 := (Nat.div_add_mod v 128).symm
      have e1 : v / 128 * 2 ^ (shift + 7) + v % 128 * 2 ^ shift = v * 2 ^ shift := by
        rw [hpow]
        calc v / 128 * (2 ^ shift * 128) + v % 128 * 2 ^ shift
            = (128 * (v / 128) + v % 128) * 2 ^ shift := by ring
          _ = v * 2 ^ shift := by rw [← hdm]
      rw [ih (v / 128) (shift + 7) _ rest]
      · rw [Nat.mod_eq_of_lt (lt_of_le_of_lt hle hb)]
        congr 2
        omega
      · have : (2:Nat) ^ (7 * (fuel + 1 + 1)) = 128 * 2 ^ (7 * (fuel + 1)) := by
          rw [show 7 * (fuel + 1 + 1) = 7 + 7 * (fuel + 1) by ring, pow_add]; norm_num
        rw [this] at hv
        exact Nat.div_lt_of_lt_mul hv
      · omega
      · have : v / 128 * 2 ^ (shift + 7) ≤ v * 2 ^ shift := by omega
        exact lt_of_le_of_lt this hb
    · have hv2 : v < 128 := by omega
      simp only [EncodeVarint64.go, hge, if_false, List.cons_append, List.nil_append,
        GetVarint64Ptr, byte_val, h1]
      have h2 : v % 256 = v := by omega
      simp only [h2, hge, if_false, Nat.mod_eq_of_lt hb]

theorem GetVarint64_EncodeVarint64 (v : Nat) (rest : Bytes) :
    GetVarint64 (EncodeVarint64 v ++ rest) = some (v % 2 ^ 64, rest) := by
  unfold GetVarint64 EncodeVarint64
  rw [GetVarint64Ptr_go 9 (v % 2 ^ 64) 0 0 rest]
  · simp
  · have : v % 2 ^ 64 < 2 ^ 64 := Nat.mod_lt _ (by positivity)
    calc v % 2 ^ 64 < 2 ^ 64 := this
      _ ≤ 2 ^ (7 * (9 + 1)) := by norm_num
  · omega
  · simpa using Nat.mod_lt v (by positivity : 0 < 2 ^ 64)

theorem DecodeFrom_EncodeTo (h0 h : BlockHandle) (ho : h.offset_ < 2 ^ 64) (hs : h.size_ < 2 ^ 64) :
    h0.DecodeFrom (h.EncodeTo []) = (Status.OK, h) := by
  unfold BlockHandle.DecodeFrom BlockHandle.EncodeTo
  simp only [List.nil_append]
  rw [GetVarint64_EncodeVarint64]
  simp only
  have := GetVarint64_EncodeVarint64 h.size_ []
  simp only [List.append_nil] at this
  rw [this]
  simp only [Nat.mod_eq_of_lt ho, Nat.mod_eq_of_lt hs]


/-! ## Checksums -/

namespace crc32c

theorem bitStep_lt (c : Nat) (h : c < 2 ^ 32) : bitStep c < 2 ^ 32 := by
  unfold bitStep
  split
  · exact Nat.xor_lt_two_pow (by omega) (by norm_num)
  · omega

theorem iterate_bitStep_lt (k c : Nat) (h : c < 2 ^ 32) : Nat.iterate bitStep k c < 2 ^ 32 := by
  induction k generalizing c with
  | zero => simpa using h
  | succ k ih => exact ih _ (bitStep_lt c h)

theorem byteStep_lt (l : Nat) (b : Byte) (h : l < 2 ^ 32) : byteStep l b < 2 ^ 32 := by
  unfold byteStep
  apply Nat.xor_lt_two_pow
  · apply iterate_bitStep_lt
    have : (l ^^^ b.val) % 256 < 256 := Nat.mod_lt _ (by norm_num)
    omega
  · omega

theorem foldl_byteStep_lt (data : Bytes) (l : Nat) (h : l < 2 ^ 32) :
    data.foldl byteStep l < 2 ^ 32 := by
  induction data generalizing l with
  | nil => simpa using h
  | cons b rest ih => exact ih _ (byteStep_lt l b h)

theorem xor_xor_cancel (x m : Nat) : (x ^^^ m) ^^^ m = x := by
  rw [Nat.xor_assoc, Nat.xor_self, Nat.xor_zero]

theorem Extend_lt (c : Nat) (data : Bytes) (h : c < 2 ^ 32) : Extend c data < 2 ^ 32 := by
  unfold Extend
  exact Nat.xor_lt_two_pow (foldl_byteStep_lt _ _ (Nat.xor_lt_two_pow h (by norm_num)))
    (by norm_num)

theorem Value_lt (data : Bytes) : Value data < 2 ^ 32 := Extend_lt 0 data (by norm_num)

theorem Extend_Extend (c : Nat) (a b : Bytes) : Extend (Extend c a) b = Extend c (a ++ b) := by
  unfold Extend
  rw [xor_xor_cancel, List.foldl_append]

theorem Extend_Value (a b : Bytes) : Extend (Value a) b = Value (a ++ b) := Extend_Extend 0 a b

theorem Unmask_Mask (c : Nat) (h : c < 2 ^ 32) : Unmask (Mask c) = c := by
  unfold Unmask Mask
  have hq : c / 2 ^ 15 < 2 ^ 17 := by omega
  have hm : c % 2 ^ 15 < 2 ^ 15 := Nat.mod_lt _ (by norm_num)
  have hc : c = 2 ^ 15 * (c / 2 ^ 15) + c % 2 ^ 15 := (Nat.div_add_mod c (2 ^ 15)).symm
  generalize c / 2 ^ 15 = q at hq hc ⊢
  generalize c % 2 ^ 15 = m at hm hc ⊢
  have hrot : ((q + m * 2 ^ 17 + kMaskDelta) % 2 ^ 32 + 2 ^ 32 - kMaskDelta) % 2 ^ 32
      = q + m * 2 ^ 17 := by
    unfold kMaskDelta
    omega
  rw [hrot]
  omega

end crc32c

/-! ## The builder -/


theorem WriteRawBlock_handle (b : UnitHandleBlockBuilder) (c : Bytes) (t : Nat) (h : BlockHandle) :
    (b.WriteRawBlock c t h).2.1 = ⟨b.offset_ % 2 ^ 64, c.length % 2 ^ 64⟩ := by
  unfold UnitHandleBlockBuilder.WriteRawBlock
  simp only
  split_ifs <;> rfl

theorem WriteRawBlock_frame (b : UnitHandleBlockBuilder) (c : Bytes) (t : Nat) (h : BlockHandle) :
    ∃ f o, (b.WriteRawBlock c t h).2.2 = { b with file_ := f, offset_ := o } := by
  unfold UnitHandleBlockBuilder.WriteRawBlock
  simp only
  split_ifs
  · exact ⟨_, _, rfl⟩
  · exact ⟨_, b.offset_, rfl⟩
  · exact ⟨_, b.offset_, rfl⟩


theorem body_facts (keys : List Bytes) (i : Int) (b : UnitHandleBlockBuilder)
    (h1 : b.block_handle_string_ = []) (h2 : b.bitmap_ = []) :
    BodyFacts keys i b (WriteBitmap.body keys i b) := by
  have hh := WriteRawBlock_handle { b with bitmap_ := b.bitmap_ ++ b.policy_.CreateFilter keys (toInt32 keys.length) i }
    (b.bitmap_ ++ b.policy_.CreateFilter keys (toInt32 keys.length) i) kNoCompression b.blockHandle_
  obtain ⟨f, o, hf⟩ := WriteRawBlock_frame { b with bitmap_ := b.bitmap_ ++ b.policy_.CreateFilter keys (toInt32 keys.length) i }
    (b.bitmap_ ++ b.policy_.CreateFilter keys (toInt32 keys.length) i) kNoCompression b.blockHandle_
  unfold WriteBitmap.body
  simp only
  generalize UnitHandleBlockBuilder.WriteRawBlock _ _ _ _ = res at hh hf
  obtain ⟨s, handle, b1⟩ := res
  simp only at hh hf
  subst hf
  simp only [h2, List.nil_append] at hh
  constructor <;> simp [hh, h1, unitBitmap, BlockHandle.EncodeTo]


theorem loop_facts (keys : List Bytes) (todo : Nat) : ∀ (i : Int) (b : UnitHandleBlockBuilder),
    b.block_handle_string_ = [] → b.bitmap_ = [] →
    LoopFacts keys todo i b (WriteBitmap.loop keys todo i b) := by
  induction todo with
  | zero =>
    intro i b _ _
    constructor <;> simp [WriteBitmap.loop, WriteBitmap.handles, encodeHandles, recordOffsets]
  | succ todo ih =>
    intro i b h1 h2
    have hb := body_facts keys i b h1 h2
    have hl := ih (i + 1) (WriteBitmap.body keys i b) hb.bhs hb.bitmap
    constructor
    · simp only [WriteBitmap.loop, WriteBitmap.handles, encodeHandles, List.map_cons,
        List.flatten_cons]
      rw [hl.result, hb.result]
      simp [encodeHandles]
    · simp only [WriteBitmap.loop, WriteBitmap.handles, encodeHandles, List.map_cons,
        recordOffsets]
      rw [hl.offs, hb.offs, hb.result]
      simp [encodeHandles]
    · simp only [WriteBitmap.loop]; rw [hl.policy, hb.policy]
    · simp only [WriteBitmap.loop]; rw [hl.expired, hb.expired]
    · simp only [WriteBitmap.loop]; rw [hl.freq, hb.freq]
    · simp only [WriteBitmap.loop]; rw [hl.num, hb.num]

theorem handles_length (keys : List Bytes) (todo : Nat) : ∀ (i : Int) (b : UnitHandleBlockBuilder),
    (WriteBitmap.handles keys todo i b).length = todo := by
  induction todo with
  | zero => intro i b; rfl
  | succ todo ih => intro i b; simp [WriteBitmap.handles, ih]

theorem handles_bounded (keys : List Bytes) (todo : Nat) :
    ∀ (i : Int) (b : UnitHandleBlockBuilder), b.block_handle_string_ = [] → b.bitmap_ = [] →
    ∀ h ∈ WriteBitmap.handles keys todo i b, h.offset_ < 2 ^ 64 ∧ h.size_ < 2 ^ 64 := by
  induction todo with
  | zero => intro i b _ _ h hh; simp [WriteBitmap.handles] at hh
  | succ todo ih =>
    intro i b h1 h2 h hh
    have hb := body_facts keys i b h1 h2
    simp only [WriteBitmap.handles, List.mem_cons] at hh
    rcases hh with rfl | hh
    · rw [hb.handle]
      exact ⟨Nat.mod_lt _ (by positivity), Nat.mod_lt _ (by positivity)⟩
    · exact ih (i + 1) _ hb.bhs hb.bitmap h hh

theorem foldl_PutFixed32 (xs : List Nat) (acc : Bytes) :
    xs.foldl PutFixed32 acc = acc ++ (xs.map EncodeFixed32).flatten := by
  induction xs generalizing acc with
  | nil => simp
  | cons x xs ih => simp [ih, PutFixed32]

theorem Finish_eq_layout (policy : FilterPolicy) (file : WritableFile)
    (offset expiredTime access_frequnecy : Nat) (filter_unit_number : Int) (keys : List Bytes) :
    ((UnitHandleBlockBuilder.new policy file offset expiredTime access_frequnecy
        filter_unit_number).Finish keys).1
      = layout (encodeHandles ((UnitHandleBlockBuilder.new policy file offset expiredTime
          access_frequnecy filter_unit_number).unitHandles keys)) expiredTime access_frequnecy := by
  unfold UnitHandleBlockBuilder.Finish UnitHandleBlockBuilder.WriteBitmap
    UnitHandleBlockBuilder.unitHandles
  by_cases hk : keys.length = 0
  · simp [hk, UnitHandleBlockBuilder.new, layout, encodeHandles, recordOffsets, PutFixed32,
      PutFixed64]
  · simp only [hk, if_false]
    have hl := loop_facts keys filter_unit_number.toNat 0
      (UnitHandleBlockBuilder.new policy file offset expiredTime access_frequnecy
        filter_unit_number) rfl rfl
    simp only [UnitHandleBlockBuilder.new] at hl ⊢
    simp only [foldl_PutFixed32, PutFixed32, PutFixed64, hl.result, hl.offs, hl.expired, hl.freq,
      layout, List.nil_append, List.map_append, List.flatten_append, List.map_cons, List.map_nil,
      List.flatten_cons, List.flatten_nil, List.append_nil, List.append_assoc, List.length_nil]


/-! ## Reading the layout -/

theorem recordOffsets_length (recs : List Bytes) (s : Nat) :
    (recordOffsets s recs).length = recs.length := by
  induction recs generalizing s with
  | nil => rfl
  | cons r rs ih => simp [recordOffsets, ih]

theorem fixed32s_length (xs : List Nat) : ((xs.map EncodeFixed32).flatten).length = 4 * xs.length := by
  induction xs with
  | nil => rfl
  | cons x xs ih => simp [ih, EncodeFixed32_length]; omega

theorem layout_length (recs : List Bytes) (E A : Nat) :
    (layout recs E A).length = recs.flatten.length + 4 * (recs.length + 1) + 16 := by
  simp only [layout, List.length_append, fixed32s_length, recordOffsets_length,
    EncodeFixed64_length, List.length_cons, List.length_nil]

/-- reading entry `k` of an array of 32-bit values that starts at offset `p.length` -/
theorem DecodeFixed32_index (xs : List Nat) (k : Nat) (p tail : Bytes) (v : Nat)
    (h : xs[k]? = some v) :
    DecodeFixed32 ((p ++ (xs.map EncodeFixed32).flatten ++ tail).drop (p.length + 4 * k))
      = some (v % 2 ^ 32) := by
  rw [List.append_assoc, List.drop_append]
  induction xs generalizing k with
  | nil => simp at h
  | cons x xs ih =>
    cases k with
    | zero =>
      simp only [List.getElem?_cons_zero, Option.some.injEq] at h
      subst h
      simp only [List.map_cons, List.flatten_cons, Nat.mul_zero, List.drop_zero,
        List.append_assoc]
      exact DecodeFixed32_EncodeFixed32 _ _
    | succ k =>
      simp only [List.getElem?_cons_succ] at h
      have := ih k h
      simp only [List.map_cons, List.flatten_cons, List.append_assoc]
      rw [show 4 * (k + 1) = (EncodeFixed32 x).length + 4 * k by simp [EncodeFixed32_length]; omega,
        List.drop_append]
      exact this

theorem recordOffsets_getElem (recs : List Bytes) : ∀ (s k : Nat), k ≤ recs.length →
    (recordOffsets s recs ++ [(s + recs.flatten.length) % 2 ^ 32])[k]?
      = some ((s + (recs.take k).flatten.length) % 2 ^ 32) := by
  induction recs with
  | nil => intro s k hk; simp at hk; subst hk; simp [recordOffsets]
  | cons r rs ih =>
    intro s k hk
    cases k with
    | zero => simp [recordOffsets]
    | succ k =>
      simp only [recordOffsets, List.cons_append, List.getElem?_cons_succ, List.take_succ_cons,
        List.flatten_cons, List.length_append]
      have := ih (s + r.length) k (by simpa using hk)
      simp only [Nat.add_assoc] at this ⊢
      exact this


theorem ptrAt_nat (data : Bytes) (k : Nat) (h : k ≤ data.length) :
    ptrAt data (k : Int) = some (data.drop k) := by
  unfold ptrAt
  have : (0:Int) ≤ (k:Int) ∧ (k:Int) ≤ (data.length : Int) := ⟨by omega, by omega⟩
  simp [this]

theorem sliceAt_mid (p x q : Bytes) : sliceAt (p ++ x ++ q) p.length x.length = some x := by
  unfold sliceAt
  rw [if_pos (by simp), List.append_assoc, List.drop_left, List.take_left]

theorem flatten_split (recs : List Bytes) (i : Nat) (rec : Bytes) (h : recs[i]? = some rec) :
    recs.flatten = (recs.take i).flatten ++ rec ++ (recs.drop (i + 1)).flatten := by
  induction recs generalizing i with
  | nil => simp at h
  | cons r rs ih =>
    cases i with
    | zero => simp at h; subst h; simp
    | succ i =>
      simp only [List.getElem?_cons_succ] at h
      simp [ih i h]

theorem take_succ_flatten_length (recs : List Bytes) (i : Nat) (rec : Bytes)
    (h : recs[i]? = some rec) :
    (recs.take (i + 1)).flatten.length = (recs.take i).flatten.length + rec.length := by
  induction recs generalizing i with
  | nil => simp at h
  | cons r rs ih =>
    cases i with
    | zero => simp at h; subst h; simp
    | succ i =>
      simp only [List.getElem?_cons_succ] at h
      simp [ih i h]; omega

theorem take_flatten_length_le (recs : List Bytes) (i : Nat) :
    (recs.take i).flatten.length ≤ recs.flatten.length := by
  induction recs generalizing i with
  | nil => simp
  | cons r rs ih =>
    cases i with
    | zero => simp
    | succ i =>
      simp only [List.take_succ_cons, List.flatten_cons, List.length_append]
      have := ih i
      omega

/-- The location record `i` can be read back from the layout. -/
theorem ReturnBlockHandle_layout (r : UnitHandleBlockReader) (hs : List BlockHandle) (E A : Nat)
    (hdata : r.data_ = layout (encodeHandles hs) E A)
    (hao : r.array_offset_ = (encodeHandles hs).flatten.length)
    (hlen : (layout (encodeHandles hs) E A).length < 2 ^ 32)
    (hb : ∀ h ∈ hs, h.offset_ < 2 ^ 64 ∧ h.size_ < 2 ^ 64)
    (i : Nat) (h : BlockHandle) (hi : hs[i]? = some h) (hi29 : i < 2 ^ 29) :
    (ptrAt r.data_ ((r.array_offset_ : Int) + (i : Int) * 4)).bind DecodeFixed32
        = some ((encodeHandles hs).take i).flatten.length ∧
    (ptrAt r.data_ ((r.array_offset_ : Int) + (i : Int) * 4 + 4)).bind DecodeFixed32
        = some ((encodeHandles hs).take (i + 1)).flatten.length ∧
    sliceAt r.data_ ((encodeHandles hs).take i).flatten.length
        ((((encodeHandles hs).take (i + 1)).flatten.length + 2 ^ 32
          - ((encodeHandles hs).take i).flatten.length) % 2 ^ 32) = some (h.EncodeTo []) ∧
    r.ReturnBlockHandle i = some h := by
  have hrec : (encodeHandles hs)[i]? = some (h.EncodeTo []) := by
    simp [encodeHandles, hi]
  have hil : i < hs.length := by
    rcases List.getElem?_eq_some_iff.mp hi with ⟨hlt, _⟩; exact hlt
  have hN : (encodeHandles hs).length = hs.length := by simp [encodeHandles]
  have hL := layout_length (encodeHandles hs) E A
  have hle1 := take_flatten_length_le (encodeHandles hs) i
  have hle2 := take_flatten_length_le (encodeHandles hs) (i + 1)
  have hsucc := take_succ_flatten_length (encodeHandles hs) i _ hrec
  have e1 : (r.array_offset_ : Int) + (i : Int) * 4 = ((r.array_offset_ + 4 * i : Nat) : Int) := by
    push_cast; ring
  have e2 : (r.array_offset_ : Int) + (i : Int) * 4 + 4
      = ((r.array_offset_ + 4 * (i + 1) : Nat) : Int) := by
    push_cast; ring
  have d1 : (ptrAt r.data_ ((r.array_offset_ : Int) + (i : Int) * 4)).bind DecodeFixed32
        = some ((encodeHandles hs).take i).flatten.length := by
    rw [e1, ptrAt_nat r.data_ (r.array_offset_ + 4 * i) (by rw [hdata, hL, hao, hN]; omega),
      hdata, hao]
    simp only [Option.some_bind, layout]
    have hk := recordOffsets_getElem (encodeHandles hs) 0 i (by omega)
    simp only [Nat.zero_add] at hk
    have := DecodeFixed32_index
      (recordOffsets 0 (encodeHandles hs) ++ [(encodeHandles hs).flatten.length % 2 ^ 32]) i
      (encodeHandles hs).flatten (EncodeFixed64 E ++ EncodeFixed64 A) _ hk
    simp only [List.append_assoc] at this ⊢
    rw [this]
    congr 1
    omega
  have d2 : (ptrAt r.data_ ((r.array_offset_ : Int) + (i : Int) * 4 + 4)).bind DecodeFixed32
        = some ((encodeHandles hs).take (i + 1)).flatten.length := by
    rw [e2, ptrAt_nat r.data_ (r.array_offset_ + 4 * (i + 1)) (by rw [hdata, hL, hao, hN]; omega),
      hdata, hao]
    simp only [Option.some_bind, layout]
    have hk := recordOffsets_getElem (encodeHandles hs) 0 (i + 1) (by omega)
    simp only [Nat.zero_add] at hk
    have := DecodeFixed32_index
      (recordOffsets 0 (encodeHandles hs) ++ [(encodeHandles hs).flatten.length % 2 ^ 32]) (i + 1)
      (encodeHandles hs).flatten (EncodeFixed64 E ++ EncodeFixed64 A) _ hk
    simp only [List.append_assoc] at this ⊢
    rw [this]
    congr 1
    omega
  have d3 : sliceAt r.data_ ((encodeHandles hs).take i).flatten.length
        ((((encodeHandles hs).take (i + 1)).flatten.length + 2 ^ 32
          - ((encodeHandles hs).take i).flatten.length) % 2 ^ 32) = some (h.EncodeTo []) := by
    have hsz : (((encodeHandles hs).take (i + 1)).flatten.length + 2 ^ 32
          - ((encodeHandles hs).take i).flatten.length) % 2 ^ 32 = (h.EncodeTo []).length := by
      rw [hsucc]; omega
    rw [hsz, hdata, layout, flatten_split _ i _ hrec]
    simp only [List.append_assoc]
    have := sliceAt_mid (List.take i (encodeHandles hs)).flatten (h.EncodeTo [])
      ((List.drop (i + 1) (encodeHandles hs)).flatten ++
        ((List.map EncodeFixed32 (recordOffsets 0 (encodeHandles hs) ++
          [((List.take i (encodeHandles hs)).flatten ++ (h.EncodeTo [] ++
            (List.drop (i + 1) (encodeHandles hs)).flatten)).length % 2 ^ 32])).flatten ++
          (EncodeFixed64 E ++ EncodeFixed64 A)))
    simpa only [List.append_assoc] using this
  refine ⟨d1, d2, d3, ?_⟩
  rw [UnitHandleBlockReader.ReturnBlockHandle]
  rw [mulInt32_four i hi29, d1, d2]
  simp only
  rw [d3]
  simp only
  have hbh := hb h (by
    rcases List.getElem?_eq_some_iff.mp hi with ⟨hlt, rfl⟩
    exact List.getElem_mem hlt)
  rw [DecodeFrom_EncodeTo _ _ hbh.1 hbh.2]

theorem footer_reads (X : Bytes) (ao E A : Nat) :
    (ptrAt (X ++ EncodeFixed32 ao ++ EncodeFixed64 E ++ EncodeFixed64 A)
        (((X ++ EncodeFixed32 ao ++ EncodeFixed64 E ++ EncodeFixed64 A).length : Int) - 8)).bind
      DecodeFixed64 = some (A % 2 ^ 64) ∧
    (ptrAt (X ++ EncodeFixed32 ao ++ EncodeFixed64 E ++ EncodeFixed64 A)
        (((X ++ EncodeFixed32 ao ++ EncodeFixed64 E ++ EncodeFixed64 A).length : Int) - 8 - 8)).bind
      DecodeFixed64 = some (E % 2 ^ 64) ∧
    (ptrAt (X ++ EncodeFixed32 ao ++ EncodeFixed64 E ++ EncodeFixed64 A)
        (((X ++ EncodeFixed32 ao ++ EncodeFixed64 E ++ EncodeFixed64 A).length : Int)
          - 8 - 8 - 4)).bind
      DecodeFixed32 = some (ao % 2 ^ 32) := by
  have hn : (X ++ EncodeFixed32 ao ++ EncodeFixed64 E ++ EncodeFixed64 A).length
      = X.length + 20 := by
    simp [EncodeFixed32_length, EncodeFixed64_length]
  have e1 : ((X ++ EncodeFixed32 ao ++ EncodeFixed64 E ++ EncodeFixed64 A).length : Int) - 8
      = ((X.length + 12 : Nat) : Int) := by rw [hn]; push_cast; ring
  have e2 : ((X ++ EncodeFixed32 ao ++ EncodeFixed64 E ++ EncodeFixed64 A).length : Int) - 8 - 8
      = ((X.length + 4 : Nat) : Int) := by rw [hn]; push_cast; ring
  have e3 : ((X ++ EncodeFixed32 ao ++ EncodeFixed64 E ++ EncodeFixed64 A).length : Int)
      - 8 - 8 - 4 = ((X.length : Nat) : Int) := by rw [hn]; push_cast; ring
  refine ⟨?_, ?_, ?_⟩
  · rw [e1, ptrAt_nat _ _ (by rw [hn]; omega)]
    have : (X ++ EncodeFixed32 ao ++ EncodeFixed64 E ++ EncodeFixed64 A).drop (X.length + 12)
        = EncodeFixed64 A := by
      apply List.drop_left'
      simp [EncodeFixed32_length, EncodeFixed64_length]
    rw [this]
    have := DecodeFixed64_EncodeFixed64 A []
    simpa using this
  · rw [e2, ptrAt_nat _ _ (by rw [hn]; omega)]
    have : (X ++ EncodeFixed32 ao ++ EncodeFixed64 E ++ EncodeFixed64 A).drop (X.length + 4)
        = EncodeFixed64 E ++ EncodeFixed64 A := by
      rw [List.append_assoc]
      apply List.drop_left'
      simp [EncodeFixed32_length]
    rw [this]
    exact DecodeFixed64_EncodeFixed64 E (EncodeFixed64 A)
  · rw [e3, ptrAt_nat _ _ (by rw [hn]; omega)]
    have : (X ++ EncodeFixed32 ao ++ EncodeFixed64 E ++ EncodeFixed64 A).drop X.length
        = EncodeFixed32 ao ++ (EncodeFixed64 E ++ EncodeFixed64 A) := by
      rw [List.append_assoc, List.append_assoc]
      exact List.drop_left _ _
    rw [this]
    exact DecodeFixed32_EncodeFixed32 ao (EncodeFixed64 E ++ EncodeFixed64 A)

theorem layout_eq_footer (recs : List Bytes) (E A : Nat) :
    layout recs E A
      = (recs.flatten ++ ((recordOffsets 0 recs).map EncodeFixed32).flatten)
          ++ EncodeFixed32 (recs.flatten.length % 2 ^ 32) ++ EncodeFixed64 E ++ EncodeFixed64 A := by
  simp [layout]

theorem toInt32_small (x : Nat) (h : x < 2 ^ 31) : toInt32 x = (x : Int) := by
  unfold toInt32
  have h1 : x % 2 ^ 32 = x := Nat.mod_eq_of_lt (by omega)
  rw [h1, if_pos h]

/-- The reader state right after the footer of a layout was parsed, before the initial load. -/
theorem new_layout (port : Port) (policy : FilterPolicy) (file : RandomAccessFile)
    (options : ReadOptions) (recs : List Bytes) (E A : Nat) (loaded_number : Int)
    (hlen : (layout recs E A).length < 2 ^ 32) :
    UnitHandleBlockReader.new port policy file options (layout recs E A) loaded_number
      = (UnitHandleBlockReader.LoadUnits port
          { policy_ := policy, file_ := file, options_ := options, data_ := layout recs E A,
            array_offset_ := recs.flatten.length, bitmaps_ := [], expiredTime_ := E % 2 ^ 64,
            access_frequnecy_ := A % 2 ^ 64, filter_unit_loaded_number_ := 0,
            filter_unit_number_ := (recs.length : Int),
            blockContents_ := BlockContents.init, blockHandle_ := BlockHandle.init }
          loaded_number).map Prod.snd := by
  have hL := layout_length recs E A
  have hf := footer_reads (recs.flatten ++ ((recordOffsets 0 recs).map EncodeFixed32).flatten)
    (recs.flatten.length % 2 ^ 32) E A
  rw [← layout_eq_footer] at hf
  obtain ⟨h1, h2, h3⟩ := hf
  have hao : recs.flatten.length % 2 ^ 32 % 2 ^ 32 = recs.flatten.length := by omega
  rw [hao] at h3
  unfold UnitHandleBlockReader.new
  simp only [h1, h2, h3]
  have hnum : toInt32 (((((layout recs E A).length : Int) - 8 - 8 - 4
      - ((recs.flatten.length : Nat) : Int)) % 2 ^ 64) / 4).toNat = (recs.length : Int) := by
    have e : (((layout recs E A).length : Int) - 8 - 8 - 4 - ((recs.flatten.length : Nat) : Int))
        = ((4 * recs.length : Nat) : Int) := by rw [hL]; push_cast; ring
    rw [e]
    have e2 : (((4 * recs.length : Nat) : Int) % 2 ^ 64 / 4).toNat = recs.length := by omega
    rw [e2]
    exact toInt32_small _ (by omega)
  rw [hnum]

theorem Read_contents (f : RandomAccessFile) (offset n : Nat) :
    (f.Read offset n).2.2 = { f with reads_ := f.reads_ ++ [(offset, n)] } := by
  unfold RandomAccessFile.Read
  simp only
  split <;> rfl

theorem ReadBlock_file (port : Port) (file : RandomAccessFile) (options : ReadOptions)
    (handle : BlockHandle) (s : Status) (c : BlockContents) (file1 : RandomAccessFile)
    (h : ReadBlock port file options handle = some (s, c, file1)) :
    file1 = { file with reads_ := file.reads_ ++ [(handle.offset_, handle.size_ + kBlockTrailerSize)] } := by
  unfold ReadBlock at h
  simp only at h
  have hr := Read_contents file handle.offset_ (handle.size_ + kBlockTrailerSize)
  generalize file.Read handle.offset_ (handle.size_ + kBlockTrailerSize) = res at h hr
  obtain ⟨s0, contents, f1⟩ := res
  simp only at hr
  subst hr
  simp only at h
  split_ifs at h
  all_goals first
    | (simp only [Option.some.injEq, Prod.mk.injEq] at h; exact h.2.2.symm)
    | skip
  · split at h
    · exact absurd h (by simp)
    · split_ifs at h
      · simp only [Option.some.injEq, Prod.mk.injEq] at h; exact h.2.2.symm
      · split at h <;> (simp only [Option.some.injEq, Prod.mk.injEq] at h; exact h.2.2.symm)
      · simp only [Option.some.injEq, Prod.mk.injEq] at h; exact h.2.2.symm

theorem LoadFrame.refl (r : UnitHandleBlockReader) : LoadFrame r r :=
  ⟨rfl, rfl, rfl, rfl, rfl, rfl, rfl, rfl, ⟨[], by simp, by simp⟩⟩

theorem LoadUnits_loop_frame (port : Port) (todo : Nat) :
    ∀ (i : Int) (r : UnitHandleBlockReader) (s : Status) (r1 : UnitHandleBlockReader),
      UnitHandleBlockReader.LoadUnits.loop port todo i r = some (s, r1) → LoadFrame r r1 := by
  induction todo with
  | zero =>
    intro i r s r1 h
    simp only [UnitHandleBlockReader.LoadUnits.loop, Option.some.injEq, Prod.mk.injEq] at h
    rw [← h.2]
    exact LoadFrame.refl r
  | succ todo ih =>
    intro i r s r1 h
    simp only [UnitHandleBlockReader.LoadUnits.loop] at h
    split at h
    · exact absurd h (by simp)
    · rename_i handle _
      split at h
      · exact absurd h (by simp)
      · rename_i s0 contents file1 hrb
        have hfile := ReadBlock_file _ _ _ _ _ _ _ hrb
        split_ifs at h
        · have := ih _ _ _ _ h
          obtain ⟨added, ha1, ha2⟩ := this.grows
          refine ⟨this.policy, this.options, this.data, this.array_offset, this.expired,
            this.freq, this.num, ?_, ⟨contents.data :: added, ?_, ?_⟩⟩
          · rw [this.contents, hfile]
          · rw [ha1]; simp
          · rw [ha2]; simp only [List.length_cons]; push_cast; ring
        · simp only [Option.some.injEq, Prod.mk.injEq] at h
          rw [← h.2]
          refine ⟨rfl, rfl, rfl, rfl, rfl, rfl, rfl, ?_, ⟨[], by simp, by simp⟩⟩
          rw [hfile]

theorem LoadUnits_frame (port : Port) (r : UnitHandleBlockReader) (number : Int) (s : Status)
    (r1 : UnitHandleBlockReader) (h : UnitHandleBlockReader.LoadUnits port r number = some (s, r1)) :
    LoadFrame r r1 := by
  unfold UnitHandleBlockReader.LoadUnits at h
  split_ifs at h
  · simp only [Option.some.injEq, Prod.mk.injEq] at h
    rw [← h.2]
    exact LoadFrame.refl r
  · exact LoadUnits_loop_frame port _ _ _ _ _ h

theorem unitHandles_length (b : UnitHandleBlockBuilder) (keys : List Bytes) (hk : keys ≠ []) :
    (b.unitHandles keys).length = b.filter_unit_number_.toNat := by
  unfold UnitHandleBlockBuilder.unitHandles
  have : keys.length ≠ 0 := by simpa using hk
  simp only [this, if_false, handles_length]

theorem unitHandles_bounded (policy : FilterPolicy) (sink : WritableFile) (offset E A : Nat)
    (N : Int) (keys : List Bytes) :
    ∀ h ∈ (UnitHandleBlockBuilder.new policy sink offset E A N).unitHandles keys,
      h.offset_ < 2 ^ 64 ∧ h.size_ < 2 ^ 64 := by
  unfold UnitHandleBlockBuilder.unitHandles
  split
  · intro h hh; simp at hh
  · exact handles_bounded keys _ 0 _ rfl rfl

/-- The reader built over a finished buffer: its footer fields and its unit count. -/
theorem new_Finish (policy : FilterPolicy) (sink : WritableFile) (offset E A : Nat) (N : Int)
    (keys : List Bytes) (port : Port) (rpolicy : FilterPolicy) (file : RandomAccessFile)
    (options : ReadOptions) (loaded_number : Int)
    (hlen : ((UnitHandleBlockBuilder.new policy sink offset E A N).Finish keys).1.length < 2 ^ 32)
    (r : UnitHandleBlockReader)
    (hr : UnitHandleBlockReader.new port rpolicy file options
      ((UnitHandleBlockBuilder.new policy sink offset E A N).Finish keys).1 loaded_number = some r) :
    r.data_ = layout (encodeHandles
        ((UnitHandleBlockBuilder.new policy sink offset E A N).unitHandles keys)) E A ∧
    r.array_offset_ = (encodeHandles
        ((UnitHandleBlockBuilder.new policy sink offset E A N).unitHandles keys)).flatten.length ∧
    r.filter_unit_number_
      = (((UnitHandleBlockBuilder.new policy sink offset E A N).unitHandles keys).length : Int) ∧
    r.expiredTime_ = E % 2 ^ 64 ∧ r.access_frequnecy_ = A % 2 ^ 64 ∧ r.policy_ = rpolicy ∧
    r.options_ = options ∧ r.file_.contents_ = file.contents_ := by
  rw [Finish_eq_layout] at hlen hr
  rw [new_layout _ _ _ _ _ _ _ _ hlen] at hr
  simp only [Option.map_eq_some', Prod.exists, exists_eq_right] at hr
  obtain ⟨s, hr⟩ := hr
  have hf := LoadUnits_frame _ _ _ _ _ hr
  refine ⟨hf.data, hf.array_offset, ?_, hf.expired, hf.freq, hf.policy, hf.options, hf.contents⟩
  rw [hf.num]
  simp [encodeHandles]

theorem new_zero_isSome (port : Port) (policy : FilterPolicy) (file : RandomAccessFile)
    (options : ReadOptions) (recs : List Bytes) (E A : Nat)
    (hlen : (layout recs E A).length < 2 ^ 32) :
    ∃ r, UnitHandleBlockReader.new port policy file options (layout recs E A) 0 = some r := by
  rw [new_layout _ _ _ _ _ _ _ _ hlen]
  unfold UnitHandleBlockReader.LoadUnits
  rw [if_neg (by
    simp only [addInt32_exact 0 0 (by omega) (by omega), Int.zero_add, Int.add_zero]; omega)]
  simp [UnitHandleBlockReader.LoadUnits.loop]

/-! ## A faithful sink: where the unit blocks are stored -/

theorem rawBlock_length (c : Bytes) (t : Nat) : (rawBlock c t).length = c.length + 5 := by
  simp [rawBlock, EncodeFixed32_length]

theorem WriteRawBlock_faithful (b : UnitHandleBlockBuilder) (c : Bytes) (t : Nat) (h : BlockHandle)
    (hq : b.file_.quota_ = none) :
    (b.WriteRawBlock c t h).2.2 =
      { b with file_ := { b.file_ with contents_ := b.file_.contents_ ++ rawBlock c t },
               offset_ := (b.offset_ + (c.length + kBlockTrailerSize)) % 2 ^ 64 } := by
  unfold UnitHandleBlockBuilder.WriteRawBlock WritableFile.Append
  simp only [hq, Status.ok, if_true, rawBlock, List.append_assoc]

theorem body_faithful (keys : List Bytes) (i : Int) (b : UnitHandleBlockBuilder)
    (h2 : b.bitmap_ = []) (hq : b.file_.quota_ = none) :
    (WriteBitmap.body keys i b).file_.contents_
        = b.file_.contents_ ++ rawBlock (unitBitmap b.policy_ keys i) kNoCompression ∧
    (WriteBitmap.body keys i b).file_.quota_ = none ∧
    (WriteBitmap.body keys i b).offset_
        = (b.offset_ + ((unitBitmap b.policy_ keys i).length + kBlockTrailerSize)) % 2 ^ 64 := by
  have hf := WriteRawBlock_faithful
    { b with bitmap_ := b.bitmap_ ++ b.policy_.CreateFilter keys (toInt32 keys.length) i }
    (b.bitmap_ ++ b.policy_.CreateFilter keys (toInt32 keys.length) i) kNoCompression
    b.blockHandle_ hq
  unfold WriteBitmap.body
  simp only
  generalize UnitHandleBlockBuilder.WriteRawBlock _ _ _ _ = res at hf
  obtain ⟨s, handle, b1⟩ := res
  simp only at hf
  subst hf
  simp only [h2, List.nil_append, unitBitmap, hq, and_self]

theorem loop_faithful (keys : List Bytes) (todo : Nat) :
    ∀ (i : Nat) (b : UnitHandleBlockBuilder), b.block_handle_string_ = [] → b.bitmap_ = [] →
      b.file_.quota_ = none → b.offset_ = b.file_.contents_.length →
      (WriteBitmap.loop keys todo i b).file_.contents_.length < 2 ^ 64 →
      (∃ suffix, (WriteBitmap.loop keys todo i b).file_.contents_ = b.file_.contents_ ++ suffix) ∧
      (WriteBitmap.loop keys todo i b).offset_
        = (WriteBitmap.loop keys todo i b).file_.contents_.length ∧
      ∀ (k : Nat) (h : BlockHandle), (WriteBitmap.handles keys todo i b)[k]? = some h →
        Stored (WriteBitmap.loop keys todo i b).file_.contents_ h
          (unitBitmap b.policy_ keys ((i + k : Nat) : Int)) := by
  induction todo with
  | zero =>
    intro i b _ _ _ hs _
    refine ⟨⟨[], by simp [WriteBitmap.loop]⟩, by simpa [WriteBitmap.loop] using hs, ?_⟩
    intro k h hk
    simp [WriteBitmap.handles] at hk
  | succ todo ih =>
    intro i b h1 h2 hq hs hlen
    have hb := body_facts keys i b h1 h2
    obtain ⟨hc, hq1, ho⟩ := body_faithful keys i b h2 hq
    simp only [WriteBitmap.loop] at hlen ⊢
    have hcast : ((i : Nat) : Int) + 1 = ((i + 1 : Nat) : Int) := by push_cast; rfl
    rw [hcast] at hlen ⊢
    -- monotone growth lets us bound the intermediate length
    have hmono : ∀ (t : Nat) (j : Nat) (b' : UnitHandleBlockBuilder),
        b'.bitmap_ = [] → b'.block_handle_string_ = [] → b'.file_.quota_ = none →
        b'.file_.contents_.length ≤ (WriteBitmap.loop keys t j b').file_.contents_.length := by
      intro t
      induction t with
      | zero => intro j b' _ _ _; simp [WriteBitmap.loop]
      | succ t iht =>
        intro j b' hb2 hb1 hbq
        have hb' := body_facts keys j b' hb1 hb2
        obtain ⟨hc', hq', _⟩ := body_faithful keys j b' hb2 hbq
        simp only [WriteBitmap.loop]
        have hcj : ((j : Nat) : Int) + 1 = ((j + 1 : Nat) : Int) := by push_cast; rfl
        rw [hcj]
        have := iht (j + 1) _ hb'.bitmap hb'.bhs hq'
        rw [hc'] at this
        simp only [List.length_append] at this
        omega
    have hle := hmono todo (i + 1) _ hb.bitmap hb.bhs hq1
    have hsync : (WriteBitmap.body keys (i : Int) b).offset_
        = (WriteBitmap.body keys (i : Int) b).file_.contents_.length := by
      rw [ho, hc, hs]
      simp only [List.length_append, rawBlock_length, kBlockTrailerSize]
      rw [hc] at hle
      simp only [List.length_append, rawBlock_length] at hle
      exact Nat.mod_eq_of_lt (by omega)
    obtain ⟨⟨suffix, hsuf⟩, hsy, hst⟩ := ih (i + 1) _ hb.bhs hb.bitmap hq1 hsync hlen
    refine ⟨⟨rawBlock (unitBitmap b.policy_ keys i) kNoCompression ++ suffix, ?_⟩, hsy, ?_⟩
    · rw [hsuf, hc, List.append_assoc]
    · intro k h hk
      cases k with
      | zero =>
        simp only [WriteBitmap.handles, List.getElem?_cons_zero, Option.some.injEq] at hk
        refine ⟨b.file_.contents_, suffix, ?_, ?_, ?_⟩
        · rw [hsuf, hc]; rfl
        · rw [← hk, hb.handle]
          simp only
          rw [hc] at hle
          simp only [List.length_append, rawBlock_length] at hle
          rw [hs]
          exact (Nat.mod_eq_of_lt (by omega)).symm
        · rw [← hk, hb.handle]
          simp only
          rw [hc] at hle
          simp only [List.length_append, rawBlock_length] at hle
          exact Nat.mod_eq_of_lt (by omega)
      | succ k =>
        simp only [WriteBitmap.handles, List.getElem?_cons_succ] at hk
        rw [hcast] at hk
        have := hst k h hk
        rw [hb.policy] at this
        have e : i + 1 + k = i + (k + 1) := by omega
        rw [e] at this
        exact this

theorem ReadBlock_stored (port : Port) (file : RandomAccessFile) (options : ReadOptions)
    (h : BlockHandle) (bm : Bytes) (hst : Stored file.contents_ h bm)
    (hlen : file.contents_.length < 2 ^ 64) :
    ReadBlock port file options h
      = some (Status.OK, ⟨bm, true, true⟩,
          { file with reads_ := file.reads_ ++ [(h.offset_, h.size_ + kBlockTrailerSize)] }) := by
  obtain ⟨pre, post, hc, hpre, hsz⟩ := hst
  have hlen2 : pre.length + (bm.length + 5) + post.length < 2 ^ 64 := by
    rw [hc] at hlen
    simpa [rawBlock_length, Nat.add_assoc] using hlen
  have hread : file.Read h.offset_ (h.size_ + kBlockTrailerSize)
      = (Status.OK, rawBlock bm kNoCompression,
          { file with reads_ := file.reads_ ++ [(h.offset_, h.size_ + kBlockTrailerSize)] }) := by
    unfold RandomAccessFile.Read
    simp only
    have h1 : ¬ h.offset_ ≥ file.contents_.length := by
      rw [hc, ← hpre]; simp [rawBlock_length]
    rw [if_neg h1]
    have h2 : ¬ (h.offset_ + (h.size_ + kBlockTrailerSize)) % 2 ^ 64 > file.contents_.length := by
      rw [hc, ← hpre, hsz]
      simp only [List.length_append, rawBlock_length, kBlockTrailerSize]
      rw [Nat.mod_eq_of_lt (by omega)]
      omega
    rw [if_neg h2, hc, ← hpre, hsz, List.append_assoc, List.drop_left]
    have : bm.length + kBlockTrailerSize = (rawBlock bm kNoCompression).length := by
      rw [rawBlock_length]; rfl
    rw [this, List.take_left]
  unfold ReadBlock
  simp only
  have hn : ¬ h.size_ + kBlockTrailerSize ≥ 2 ^ 64 := by
    rw [hsz]; simp only [kBlockTrailerSize]; omega
  rw [if_neg hn, hread]
  simp only [Status.ok, Bool.not_true, Bool.false_eq_true, if_false, hsz]
  have hl : (rawBlock bm kNoCompression).length = bm.length + kBlockTrailerSize := by
    rw [rawBlock_length]; rfl
  simp only [hl, ne_eq, not_true_eq_false, if_false]
  have hdrop1 : (rawBlock bm kNoCompression).drop (bm.length + 1)
      = EncodeFixed32 (crc32c.Mask (crc32c.Extend (crc32c.Value bm) [byte kNoCompression])) := by
    unfold rawBlock
    rw [show bm ++ byte kNoCompression :: EncodeFixed32 (crc32c.Mask (crc32c.Extend
        (crc32c.Value bm) [byte kNoCompression]))
      = (bm ++ [byte kNoCompression]) ++ EncodeFixed32 (crc32c.Mask (crc32c.Extend
        (crc32c.Value bm) [byte kNoCompression])) by simp]
    exact List.drop_left' (by simp)
  have htake1 : (rawBlock bm kNoCompression).take (bm.length + 1) = bm ++ [byte kNoCompression] := by
    unfold rawBlock
    rw [show bm ++ byte kNoCompression :: EncodeFixed32 (crc32c.Mask (crc32c.Extend
        (crc32c.Value bm) [byte kNoCompression]))
      = (bm ++ [byte kNoCompression]) ++ EncodeFixed32 (crc32c.Mask (crc32c.Extend
        (crc32c.Value bm) [byte kNoCompression])) by simp]
    exact List.take_left' (by simp)
  have hdrop0 : (rawBlock bm kNoCompression).drop bm.length
      = byte kNoCompression :: EncodeFixed32 (crc32c.Mask (crc32c.Extend
        (crc32c.Value bm) [byte kNoCompression])) := by
    unfold rawBlock
    exact List.drop_left _ _
  have htake0 : (rawBlock bm kNoCompression).take bm.length = bm := by
    unfold rawBlock
    exact List.take_left _ _
  have hcrc : (DecodeFixed32 ((rawBlock bm kNoCompression).drop (bm.length + 1))).map crc32c.Unmask
      = some (crc32c.Value ((rawBlock bm kNoCompression).take (bm.length + 1))) := by
    rw [hdrop1, htake1]
    have := DecodeFixed32_EncodeFixed32 (crc32c.Mask (crc32c.Extend (crc32c.Value bm)
      [byte kNoCompression])) []
    rw [List.append_nil] at this
    rw [this, Option.map_some']
    have hm : crc32c.Mask (crc32c.Extend (crc32c.Value bm) [byte kNoCompression]) % 2 ^ 32
        = crc32c.Mask (crc32c.Extend (crc32c.Value bm) [byte kNoCompression]) := by
      unfold crc32c.Mask
      exact Nat.mod_mod _ _
    rw [hm, crc32c.Unmask_Mask _ (crc32c.Extend_lt _ _ (crc32c.Value_lt bm)), crc32c.Extend_Value]
  rw [hcrc, hdrop0, htake0]
  simp [kNoCompression, byte]

/-! ## Loading every unit back -/

theorem LoadUnits_loop_full (port : Port) (hs : List BlockHandle) (E A : Nat) (bm : Nat → Bytes)
    (C : Bytes) (hlen : (layout (encodeHandles hs) E A).length < 2 ^ 32)
    (hb : ∀ h ∈ hs, h.offset_ < 2 ^ 64 ∧ h.size_ < 2 ^ 64) (hC : C.length < 2 ^ 64)
    (hst : ∀ (k : Nat) (h : BlockHandle), hs[k]? = some h → Stored C h (bm k))
    (hn : hs.length ≤ 2 ^ 29) (todo : Nat) :
    ∀ (i : Nat) (r : UnitHandleBlockReader), r.data_ = layout (encodeHandles hs) E A →
      r.array_offset_ = (encodeHandles hs).flatten.length → r.file_.contents_ = C →
      i + todo ≤ hs.length →
      ∃ r1, UnitHandleBlockReader.LoadUnits.loop port todo (i : Int) r = some (Status.OK, r1) ∧
        r1.bitmaps_ = r.bitmaps_ ++ (List.range' i todo).map bm ∧
        r1.filter_unit_loaded_number_ = r.filter_unit_loaded_number_ + (todo : Int) := by
  induction todo with
  | zero =>
    intro i r _ _ _ _
    exact ⟨r, rfl, by simp, by simp⟩
  | succ todo ih =>
    intro i r hd ha hf hi
    have hil : i < hs.length := by omega
    have hget : hs[i]? = some hs[i] := List.getElem?_eq_getElem hil
    obtain ⟨_, _, _, hrb⟩ := ReturnBlockHandle_layout r hs E A hd ha hlen hb i _ hget
      (by omega)
    have hsto := hst i _ hget
    rw [← hf] at hsto hC
    have hread := ReadBlock_stored port r.file_ r.options_ _ _ hsto hC
    simp only [UnitHandleBlockReader.LoadUnits.loop, hrb, hread, Status.ok, if_true]
    have hcast : ((i : Nat) : Int) + 1 = ((i + 1 : Nat) : Int) := by push_cast; rfl
    rw [hcast]
    obtain ⟨r1, h1, h2, h3⟩ := ih (i + 1)
      { r with blockHandle_ := hs[i], blockContents_ := ⟨bm i, true, true⟩,
               file_ := { r.file_ with reads_ := r.file_.reads_ ++
                 [(hs[i].offset_, hs[i].size_ + kBlockTrailerSize)] },
               bitmaps_ := r.bitmaps_ ++ [bm i],
               filter_unit_loaded_number_ := r.filter_unit_loaded_number_ + 1 }
      hd ha hf (by omega)
    refine ⟨r1, h1, ?_, ?_⟩
    · rw [h2]
      simp [List.range'_succ]
    · rw [h3]
      push_cast
      ring

theorem KeyMayMatch_loop_iff (policy : FilterPolicy) (key : Bytes) (bms : List Bytes) (i : Int) :
    UnitHandleBlockReader.KeyMayMatch.loop policy key bms i = true ↔
      ∀ j : Fin bms.length, policy.KeyMayMatch key (bms.get j) (i + (j.val : Int)) = true := by
  induction bms generalizing i with
  | nil => simp [UnitHandleBlockReader.KeyMayMatch.loop]
  | cons bm rest ih =>
    simp only [UnitHandleBlockReader.KeyMayMatch.loop]
    constructor
    · intro h
      by_cases hb : policy.KeyMayMatch key bm i = true
      · simp [hb] at h
        have h2 := (ih (i + 1)).mp h
        intro j
        refine Fin.cases ?_ ?_ j
        · simpa using hb
        · intro j2
          have := h2 j2
          simp only [List.length_cons, Fin.val_succ, List.get_eq_getElem, List.getElem_cons_succ] at this ⊢
          have e : i + ((j2.val + 1 : Nat) : Int) = i + 1 + (j2.val : Int) := by push_cast; ring
          rw [e]; exact this
      · simp [hb] at h
    · intro h
      have h0 := h ⟨0, by simp⟩
      simp at h0
      simp [h0]
      apply (ih (i+1)).mpr
      intro j
      have := h j.succ
      simp only [List.length_cons, Fin.val_succ, List.get_eq_getElem, List.getElem_cons_succ] at this ⊢
      have e : i + ((j.val + 1 : Nat) : Int) = i + 1 + (j.val : Int) := by push_cast; ring
      rw [e] at this; exact this

/-! ## Facts about queries and eviction -/

theorem KeyMayMatch_fst (r : UnitHandleBlockReader) (key : Bytes) :
    (r.KeyMayMatch key).1
      = (!r.bitmaps_.isEmpty && UnitHandleBlockReader.KeyMayMatch.loop r.policy_ key r.bitmaps_ 0) := by
  unfold UnitHandleBlockReader.KeyMayMatch
  simp only
  cases h : r.bitmaps_.isEmpty <;> simp

theorem KeyMayMatch_snd (r : UnitHandleBlockReader) (key : Bytes) :
    (r.KeyMayMatch key).2 = { r with access_frequnecy_ := (r.access_frequnecy_ + 1) % 2 ^ 64 } := by
  unfold UnitHandleBlockReader.KeyMayMatch
  simp only
  split <;> rfl

theorem KeyMayMatch_loop_append (policy : FilterPolicy) (key : Bytes) (a b : List Bytes) :
    ∀ i : Int, UnitHandleBlockReader.KeyMayMatch.loop policy key (a ++ b) i = true →
      UnitHandleBlockReader.KeyMayMatch.loop policy key a i = true := by
  induction a with
  | nil => intro i _; rfl
  | cons x a ih =>
    intro i h
    simp only [List.cons_append, UnitHandleBlockReader.KeyMayMatch.loop] at h ⊢
    split_ifs at h ⊢ with hx
    exact ih (i + 1) h

theorem EvictUnits_loop_eq (n : Nat) : ∀ r : UnitHandleBlockReader,
    UnitHandleBlockReader.EvictUnits.loop n r
      = { r with bitmaps_ := r.bitmaps_.take (r.bitmaps_.length - n),
                 filter_unit_loaded_number_ := r.filter_unit_loaded_number_ - (n : Int) } := by
  induction n with
  | zero => intro r; simp [UnitHandleBlockReader.EvictUnits.loop]
  | succ n ih =>
    intro r
    simp only [UnitHandleBlockReader.EvictUnits.loop]
    rw [ih]
    simp only [List.dropLast_eq_take, List.length_take, List.take_take]
    congr 1
    · congr 1; omega
    · push_cast; ring

theorem foldl_KeyMayMatch_freq (keys : List Bytes) : ∀ r : UnitHandleBlockReader,
    (keys.foldl (fun r k => (r.KeyMayMatch k).2) r).access_frequnecy_ % 2 ^ 64
      = (r.access_frequnecy_ + keys.length) % 2 ^ 64 ∧
    (keys ≠ [] → (keys.foldl (fun r k => (r.KeyMayMatch k).2) r).access_frequnecy_ < 2 ^ 64) := by
  induction keys with
  | nil => intro r; simp
  | cons k ks ih =>
    intro r
    simp only [List.foldl_cons, List.length_cons]
    obtain ⟨h1, h2⟩ := ih (r.KeyMayMatch k).2
    rw [KeyMayMatch_snd] at h1 h2 ⊢
    simp only at h1
    refine ⟨by rw [h1]; omega, ?_⟩
    intro _
    by_cases hks : ks = []
    · subst hks
      simp only [List.foldl_nil]
      exact Nat.mod_lt _ (by norm_num)
    · exact h2 hks

theorem Finish_nil (policy : FilterPolicy) (sink : WritableFile) (offset E A : Nat) (N : Int) :
    ((UnitHandleBlockBuilder.new policy sink offset E A N).Finish []).1
      = EncodeFixed32 0 ++ EncodeFixed64 E ++ EncodeFixed64 A := by
  simp [UnitHandleBlockBuilder.Finish, UnitHandleBlockBuilder.WriteBitmap,
    UnitHandleBlockBuilder.new, PutFixed32, PutFixed64]

theorem Finish_nil_layout (policy : FilterPolicy) (sink : WritableFile) (offset E A : Nat)
    (N : Int) :
    ((UnitHandleBlockBuilder.new policy sink offset E A N).Finish []).1 = layout [] E A := by
  rw [Finish_nil]
  simp [layout, recordOffsets]

theorem sampleReader_two : sampleReader 2 = some sampleLoaded := by rfl

/-! ## The loaded count -/

theorem EvictUnits_eq (r : UnitHandleBlockReader) (n : Int) (h0 : 0 ≤ n) (hn : n < 2 ^ 64) :
    r.EvictUnits n
      = { r with bitmaps_ := r.bitmaps_.take (r.bitmaps_.length - n.toNat),
                 filter_unit_loaded_number_ :=
                   if (r.bitmaps_.length : Int) > n % 2 ^ 64 then
                     r.filter_unit_loaded_number_ - (n.toNat : Int) else 0 } := by
  unfold UnitHandleBlockReader.EvictUnits
  by_cases h : (r.bitmaps_.length : Int) > n % 2 ^ 64
  · rw [if_pos h, if_pos h, EvictUnits_loop_eq]
  · rw [if_neg h, if_neg h]
    have : r.bitmaps_.length - n.toNat = 0 := by omega
    rw [this, List.take_zero]

theorem LoadUnits_loop_count (port : Port) (todo : Nat) :
    ∀ (i : Int) (r : UnitHandleBlockReader) (s : Status) (r1 : UnitHandleBlockReader),
      UnitHandleBlockReader.LoadUnits.loop port todo i r = some (s, r1) →
      r1.bitmaps_.length ≤ r.bitmaps_.length + todo ∧
      r1.filter_unit_loaded_number_ - r.filter_unit_loaded_number_
        = ((r1.bitmaps_.length : Int) - (r.bitmaps_.length : Int)) ∧
      r.bitmaps_.length ≤ r1.bitmaps_.length := by
  induction todo with
  | zero =>
    intro i r s r1 h
    simp only [UnitHandleBlockReader.LoadUnits.loop, Option.some.injEq, Prod.mk.injEq] at h
    rw [← h.2]
    simp
  | succ todo ih =>
    intro i r s r1 h
    simp only [UnitHandleBlockReader.LoadUnits.loop] at h
    split at h
    · exact absurd h (by simp)
    · split at h
      · exact absurd h (by simp)
      · split_ifs at h
        · have := ih _ _ _ _ h
          simp only [List.length_append, List.length_singleton] at this
          refine ⟨by omega, by omega, by omega⟩
        · simp only [Option.some.injEq, Prod.mk.injEq] at h
          rw [← h.2]
          simp

theorem LoadUnits_inv (port : Port) (r : UnitHandleBlockReader) (n : Int) (s : Status)
    (r1 : UnitHandleBlockReader) (hinv : r.LoadedInv)
    (hg : addInt32 r.filter_unit_loaded_number_ n = r.filter_unit_loaded_number_ + n)
    (h : UnitHandleBlockReader.LoadUnits port r n = some (s, r1)) : r1.LoadedInv := by
  have hfr := LoadUnits_frame port r n s r1 h
  unfold UnitHandleBlockReader.LoadUnits at h
  rw [hg] at h
  unfold UnitHandleBlockReader.LoadedInv UnitHandleBlockReader.ReturnLoadedUnitsNumber at hinv ⊢
  split_ifs at h with hc
  · simp only [Option.some.injEq, Prod.mk.injEq] at h
    rw [← h.2]; exact hinv
  · have hcnt := LoadUnits_loop_count port _ _ _ _ _ h
    rw [hfr.num]
    omega

theorem EvictUnits_inv (r : UnitHandleBlockReader) (n : Int) (hn : n < 2 ^ 64)
    (hinv : r.LoadedInv) : (r.EvictUnits n).LoadedInv := by
  unfold UnitHandleBlockReader.LoadedInv UnitHandleBlockReader.ReturnLoadedUnitsNumber at hinv ⊢
  by_cases h0 : 0 ≤ n
  · rw [EvictUnits_eq r n h0 hn]
    simp only [List.length_take]
    split_ifs with hc
    · refine ⟨by omega, by omega, by omega⟩
    · refine ⟨by omega, by omega, by omega⟩
  · unfold UnitHandleBlockReader.EvictUnits
    split_ifs with hc
    · have : n.toNat = 0 := by omega
      rw [this]
      simpa [UnitHandleBlockReader.EvictUnits.loop] using hinv
    · simp only [List.length_nil, Nat.cast_zero]
      refine ⟨by omega, by omega, trivial⟩

theorem new_some (port : Port) (policy : FilterPolicy) (file : RandomAccessFile)
    (options : ReadOptions) (contents : Bytes) (loaded_number : Int) (r : UnitHandleBlockReader)
    (h : UnitHandleBlockReader.new port policy file options contents loaded_number = some r) :
    ∃ (access_frequnecy expiredTime array_offset : Nat) (s : Status),
      (ptrAt contents ((contents.length : Int) - 8)).bind DecodeFixed64 = some access_frequnecy ∧
      (ptrAt contents ((contents.length : Int) - 8 - 8)).bind DecodeFixed64 = some expiredTime ∧
      (ptrAt contents ((contents.length : Int) - 8 - 8 - 4)).bind DecodeFixed32
        = some array_offset ∧
      UnitHandleBlockReader.LoadUnits port
        { policy_ := policy, file_ := file, options_ := options, data_ := contents,
          array_offset_ := array_offset, bitmaps_ := [], expiredTime_ := expiredTime,
          access_frequnecy_ := access_frequnecy, filter_unit_loaded_number_ := 0,
          filter_unit_number_ := toInt32 (((((contents.length : Int) - 8 - 8 - 4
            - (array_offset : Int)) % 2 ^ 64) / 4).toNat),
          blockContents_ := BlockContents.init, blockHandle_ := BlockHandle.init }
        loaded_number = some (s, r) := by
  unfold UnitHandleBlockReader.new at h
  simp only at h
  split at h
  · rename_i af et ao h1 h2 h3
    simp only [Option.map_eq_some', Prod.exists, exists_eq_right] at h
    obtain ⟨s, hs⟩ := h
    exact ⟨af, et, ao, s, h1, h2, h3, hs⟩
  · exact absurd h (by simp)

/-! ## Parsing the footer of an arbitrary buffer -/

theorem DecodeFixed32_isSome (p : Bytes) (h : 4 ≤ p.length) : ∃ v, DecodeFixed32 p = some v := by
  match p, h with
  | b0 :: b1 :: b2 :: b3 :: _, _ => exact ⟨_, rfl⟩

theorem DecodeFixed64_isSome (p : Bytes) (h : 8 ≤ p.length) : ∃ v, DecodeFixed64 p = some v := by
  match p, h with
  | b0 :: b1 :: b2 :: b3 :: b4 :: b5 :: b6 :: b7 :: _, _ => exact ⟨_, rfl⟩

theorem footer_reads_isSome (contents : Bytes) (h : 20 ≤ contents.length) :
    ∃ af et ao : Nat,
      (ptrAt contents ((contents.length : Int) - 8)).bind DecodeFixed64 = some af ∧
      (ptrAt contents ((contents.length : Int) - 8 - 8)).bind DecodeFixed64 = some et ∧
      (ptrAt contents ((contents.length : Int) - 8 - 8 - 4)).bind DecodeFixed32 = some ao := by
  have e1 : (contents.length : Int) - 8 = ((contents.length - 8 : Nat) : Int) := by omega
  have e2 : (contents.length : Int) - 8 - 8 = ((contents.length - 16 : Nat) : Int) := by omega
  have e3 : (contents.length : Int) - 8 - 8 - 4 = ((contents.length - 20 : Nat) : Int) := by omega
  obtain ⟨af, h1⟩ := DecodeFixed64_isSome (contents.drop (contents.length - 8))
    (by rw [List.length_drop]; omega)
  obtain ⟨et, h2⟩ := DecodeFixed64_isSome (contents.drop (contents.length - 16))
    (by rw [List.length_drop]; omega)
  obtain ⟨ao, h3⟩ := DecodeFixed32_isSome (contents.drop (contents.length - 20))
    (by rw [List.length_drop]; omega)
  refine ⟨af, et, ao, ?_, ?_, ?_⟩
  · rw [e1, ptrAt_nat _ _ (by omega)]; exact h1
  · rw [e2, ptrAt_nat _ _ (by omega)]; exact h2
  · rw [e3, ptrAt_nat _ _ (by omega)]; exact h3

/-- With no initial load the constructor returns a reader for every buffer of 20 bytes or
more. -/
theorem new_zero_of_length (port : Port) (policy : FilterPolicy) (file : RandomAccessFile)
    (options : ReadOptions) (contents : Bytes) (h : 20 ≤ contents.length) :
    ∃ r, UnitHandleBlockReader.new port policy file options contents 0 = some r ∧
      r.bitmaps_ = [] ∧ r.ReturnLoadedUnitsNumber = 0 := by
  obtain ⟨af, et, ao, h1, h2, h3⟩ := footer_reads_isSome contents h
  unfold UnitHandleBlockReader.new
  simp only [h1, h2, h3]
  unfold UnitHandleBlockReader.LoadUnits
  simp only [Int.add_zero]
  split_ifs
  · exact ⟨_, rfl, rfl, rfl⟩
  · exact ⟨_, rfl, rfl, rfl⟩

/-! ## The footer bytes -/

theorem footer_bytes (X : Bytes) (ao E A : Nat) :
    (X ++ EncodeFixed32 ao ++ EncodeFixed64 E ++ EncodeFixed64 A).drop
        ((X ++ EncodeFixed32 ao ++ EncodeFixed64 E ++ EncodeFixed64 A).length - 8)
      = EncodeFixed64 A ∧
    ((X ++ EncodeFixed32 ao ++ EncodeFixed64 E ++ EncodeFixed64 A).drop
        ((X ++ EncodeFixed32 ao ++ EncodeFixed64 E ++ EncodeFixed64 A).length - 16)).take 8
      = EncodeFixed64 E ∧
    ((X ++ EncodeFixed32 ao ++ EncodeFixed64 E ++ EncodeFixed64 A).drop
        ((X ++ EncodeFixed32 ao ++ EncodeFixed64 E ++ EncodeFixed64 A).length - 20)).take 4
      = EncodeFixed32 ao := by
  have hn : (X ++ EncodeFixed32 ao ++ EncodeFixed64 E ++ EncodeFixed64 A).length
      = X.length + 20 := by
    simp [EncodeFixed32_length, EncodeFixed64_length]
  rw [hn]
  refine ⟨?_, ?_, ?_⟩
  · apply List.drop_left'
    simp [EncodeFixed32_length, EncodeFixed64_length]
  · have : (X ++ EncodeFixed32 ao ++ EncodeFixed64 E ++ EncodeFixed64 A).drop (X.length + 20 - 16)
        = EncodeFixed64 E ++ EncodeFixed64 A := by
      rw [List.append_assoc]
      apply List.drop_left'
      simp [EncodeFixed32_length]
    rw [this]
    exact List.take_left' (EncodeFixed64_length E)
  · have : (X ++ EncodeFixed32 ao ++ EncodeFixed64 E ++ EncodeFixed64 A).drop (X.length + 20 - 20)
        = EncodeFixed32 ao ++ (EncodeFixed64 E ++ EncodeFixed64 A) := by
      rw [List.append_assoc, List.append_assoc]
      apply List.drop_left'
      simp
    rw [this]
    exact List.take_left' (EncodeFixed32_length ao)

/-! ## Reads that fail -/

theorem Read_congr (f g : RandomAccessFile) (hc : g.contents_ = f.contents_) (o n : Nat) :
    (g.Read o n).1 = (f.Read o n).1 ∧ (g.Read o n).2.1 = (f.Read o n).2.1 := by
  unfold RandomAccessFile.Read
  simp only [hc]
  split_ifs <;> exact ⟨rfl, rfl⟩

theorem ReadBlock_congr (port : Port) (f g : RandomAccessFile) (options : ReadOptions)
    (h : BlockHandle) (hc : g.contents_ = f.contents_) :
    (ReadBlock port g options h).map (fun x => (x.1, x.2.1))
      = (ReadBlock port f options h).map (fun x => (x.1, x.2.1)) := by
  obtain ⟨h1, h2⟩ := Read_congr f g hc h.offset_ (h.size_ + kBlockTrailerSize)
  unfold ReadBlock
  simp only
  generalize g.Read h.offset_ (h.size_ + kBlockTrailerSize) = rg at h1 h2
  generalize f.Read h.offset_ (h.size_ + kBlockTrailerSize) = rf at h1 h2
  obtain ⟨sg, cg, fg⟩ := rg
  obtain ⟨sf, cf, ff⟩ := rf
  simp only at h1 h2
  subst h1 h2
  simp only
  split_ifs
  · rfl
  · rfl
  · rfl
  · rfl
  · cases (List.drop h.size_ cg).head? with
    | none => rfl
    | some tag =>
      simp only
      split_ifs
      · rfl
      · cases port.Snappy_Uncompress (List.take h.size_ cg) <;> rfl
      · rfl

theorem readUnit_congr (port : Port) (r r1 : UnitHandleBlockReader) (i : Int)
    (hd : r1.data_ = r.data_) (ha : r1.array_offset_ = r.array_offset_)
    (ho : r1.options_ = r.options_) (hc : r1.file_.contents_ = r.file_.contents_) :
    r1.readUnit port i = r.readUnit port i := by
  unfold UnitHandleBlockReader.readUnit
  rw [UnitHandleBlockReader.ReturnBlockHandle, UnitHandleBlockReader.ReturnBlockHandle]
  rw [hd, ha, ho]
  congr 1
  funext h
  exact ReadBlock_congr port r.file_ r1.file_ r.options_ h hc

theorem readUnit_some (port : Port) (r : UnitHandleBlockReader) (i : Int) (s : Status)
    (c : BlockContents) (h : r.readUnit port i = some (s, c)) :
    ∃ handle file1, r.ReturnBlockHandle i = some handle ∧
      ReadBlock port r.file_ r.options_ handle = some (s, c, file1) := by
  unfold UnitHandleBlockReader.readUnit at h
  cases hh : r.ReturnBlockHandle i with
  | none => rw [hh] at h; exact absurd h (by simp)
  | some handle =>
    rw [hh] at h
    simp only [Option.some_bind, Option.map_eq_some', Prod.mk.injEq] at h
    obtain ⟨⟨s1, c1, f1⟩, hrb, rfl, rfl⟩ := h
    exact ⟨handle, f1, rfl, hrb⟩

theorem LoadUnits_loop_fail (port : Port) (cs : Nat → BlockContents) (s : Status)
    (c : BlockContents) (hs : s.ok = false) (j : Nat) :
    ∀ (todo i : Nat) (r : UnitHandleBlockReader), j < todo →
      (∀ k, k < j → r.readUnit port ((i + k : Nat) : Int) = some (Status.OK, cs (i + k))) →
      r.readUnit port ((i + j : Nat) : Int) = some (s, c) →
      ∃ r1, UnitHandleBlockReader.LoadUnits.loop port todo (i : Int) r = some (s, r1) ∧
        r1.bitmaps_ = r.bitmaps_ ++ (List.range' i j).map (fun k => (cs k).data) ∧
        r1.filter_unit_loaded_number_ = r.filter_unit_loaded_number_ + (j : Int) ∧
        r1.file_.reads_.length = r.file_.reads_.length + (j + 1) := by
  induction j with
  | zero =>
    intro todo i r hj _ hfail
    obtain ⟨t, rfl⟩ : ∃ t, todo = t + 1 := ⟨todo - 1, by omega⟩
    obtain ⟨handle, file1, h1, h2⟩ := readUnit_some port r _ s c (by simpa using hfail)
    have hfile := ReadBlock_file _ _ _ _ _ _ _ h2
    simp only [UnitHandleBlockReader.LoadUnits.loop, h1, h2, hs, Bool.false_eq_true, if_false]
    refine ⟨_, rfl, by simp, by simp, ?_⟩
    simp only [hfile, List.length_append, List.length_singleton]
  | succ j ih =>
    intro todo i r hj hok hfail
    obtain ⟨t, rfl⟩ : ∃ t, todo = t + 1 := ⟨todo - 1, by omega⟩
    have h0 := hok 0 (by omega)
    obtain ⟨handle, file1, h1, h2⟩ := readUnit_some port r _ _ _ (by simpa using h0)
    have hfile := ReadBlock_file _ _ _ _ _ _ _ h2
    simp only [UnitHandleBlockReader.LoadUnits.loop, h1, h2, Status.ok, if_true]
    have hcast : ((i : Nat) : Int) + 1 = ((i + 1 : Nat) : Int) := by push_cast; rfl
    rw [hcast]
    have hcongr : ∀ k : Int,
        UnitHandleBlockReader.readUnit port
          { r with blockHandle_ := handle, blockContents_ := cs (i + 0), file_ := file1,
                   bitmaps_ := r.bitmaps_ ++ [(cs (i + 0)).data],
                   filter_unit_loaded_number_ := r.filter_unit_loaded_number_ + 1 } k
          = r.readUnit port k := by
      intro k
      refine readUnit_congr port r _ k ?_ ?_ ?_ ?_
      · rfl
      · rfl
      · rfl
      · simp only [hfile]
    obtain ⟨r1, g1, g2, g3, g4⟩ := ih t (i + 1)
      { r with blockHandle_ := handle, blockContents_ := cs (i + 0), file_ := file1,
               bitmaps_ := r.bitmaps_ ++ [(cs (i + 0)).data],
               filter_unit_loaded_number_ := r.filter_unit_loaded_number_ + 1 }
      (by omega)
      (by
        intro k hk
        rw [hcongr]
        have := hok (k + 1) (by omega)
        rw [show i + (k + 1) = i + 1 + k by omega] at this
        exact this)
      (by
        rw [hcongr]
        rw [show i + (j + 1) = i + 1 + j by omega] at hfail
        exact hfail)
    refine ⟨r1, g1, ?_, ?_, ?_⟩
    · rw [g2]
      simp [List.range'_succ]
    · rw [g3]; push_cast; ring
    · rw [g4]
      simp only [hfile, List.length_append, List.length_singleton]
      omega

/-! ## A sink that accepts the appends -/

theorem Append_accepts (f : WritableFile) (data : Bytes) (k : Nat) (h : f.accepts (k + 1)) :
    (f.Append data).1 = Status.OK ∧
    (f.Append data).2.contents_ = f.contents_ ++ data ∧ (f.Append data).2.accepts k := by
  obtain ⟨contents, quota, syncs⟩ := f
  unfold WritableFile.accepts at h ⊢
  cases quota with
  | none =>
    refine ⟨rfl, rfl, ?_⟩
    intro q hq2
    exact absurd hq2 (by simp [WritableFile.Append])
  | some q =>
    have := h q rfl
    cases q with
    | zero => omega
    | succ q =>
      refine ⟨rfl, rfl, ?_⟩
      intro q2 hq2
      simp only [WritableFile.Append, Option.some.injEq] at hq2
      omega

theorem WriteRawBlock_accepts (b : UnitHandleBlockBuilder) (c : Bytes) (t : Nat) (h : BlockHandle)
    (k : Nat) (hacc : b.file_.accepts (k + 2)) :
    (b.WriteRawBlock c t h).1 = Status.OK ∧
    (b.WriteRawBlock c t h).2.2.file_.contents_ = b.file_.contents_ ++ rawBlock c t ∧
    (b.WriteRawBlock c t h).2.2.file_.accepts k ∧
    (b.WriteRawBlock c t h).2.2.offset_ = (b.offset_ + (c.length + kBlockTrailerSize)) % 2 ^ 64 := by
  obtain ⟨a1, a2, a3⟩ := Append_accepts b.file_ c (k + 1) hacc
  obtain ⟨b1, b2, b3⟩ := Append_accepts (b.file_.Append c).2
    (byte t :: EncodeFixed32 (crc32c.Mask (crc32c.Extend (crc32c.Value c) [byte t]))) k a3
  have a1' : b.file_.Append c = (Status.OK, (b.file_.Append c).2) := by
    rw [← a1]
  have b1' : (b.file_.Append c).2.Append
        (byte t :: EncodeFixed32 (crc32c.Mask (crc32c.Extend (crc32c.Value c) [byte t])))
      = (Status.OK, ((b.file_.Append c).2.Append
        (byte t :: EncodeFixed32 (crc32c.Mask (crc32c.Extend (crc32c.Value c) [byte t])))).2) := by
    rw [← b1]
  unfold UnitHandleBlockBuilder.WriteRawBlock
  simp only
  rw [a1']
  simp only [Status.ok, if_true]
  rw [b1']
  simp only [Status.ok, if_true]
  refine ⟨trivial, ?_, b3, trivial⟩
  rw [b2, a2, rawBlock, List.append_assoc]

theorem body_accepts (keys : List Bytes) (i : Int) (b : UnitHandleBlockBuilder) (k : Nat)
    (h2 : b.bitmap_ = []) (hacc : b.file_.accepts (k + 2)) :
    (WriteBitmap.body keys i b).file_.contents_
        = b.file_.contents_ ++ rawBlock (unitBitmap b.policy_ keys i) kNoCompression ∧
    (WriteBitmap.body keys i b).file_.accepts k ∧
    (WriteBitmap.body keys i b).offset_
        = (b.offset_ + ((unitBitmap b.policy_ keys i).length + kBlockTrailerSize)) % 2 ^ 64 := by
  obtain ⟨_, w2, w3, w4⟩ := WriteRawBlock_accepts
    { b with bitmap_ := b.bitmap_ ++ b.policy_.CreateFilter keys (toInt32 keys.length) i }
    (b.bitmap_ ++ b.policy_.CreateFilter keys (toInt32 keys.length) i) kNoCompression
    b.blockHandle_ k hacc
  unfold WriteBitmap.body
  simp only
  generalize UnitHandleBlockBuilder.WriteRawBlock _ _ _ _ = res at w2 w3 w4
  obtain ⟨s, handle, b1⟩ := res
  simp only at w2 w3 w4
  simp only [h2, List.nil_append] at w2 w4
  exact ⟨w2, w3, w4⟩

theorem loop_contiguous (keys : List Bytes) (todo : Nat) :
    ∀ (i : Nat) (b : UnitHandleBlockBuilder), b.block_handle_string_ = [] → b.bitmap_ = [] →
      b.file_.accepts (2 * todo) → b.offset_ < 2 ^ 64 →
      (WriteBitmap.loop keys todo i b).file_.contents_
        = b.file_.contents_ ++ ((List.range' i todo).map
            (fun k : Nat => rawBlock (unitBitmap b.policy_ keys (k : Int)) kNoCompression)).flatten ∧
      (WriteBitmap.loop keys todo i b).offset_
        = (b.offset_ + ((List.range' i todo).map
            (fun k : Nat => (unitBitmap b.policy_ keys (k : Int)).length + kBlockTrailerSize)).sum)
          % 2 ^ 64 ∧
      ∀ (k : Nat) (h : BlockHandle), (WriteBitmap.handles keys todo i b)[k]? = some h →
        h = ⟨(b.offset_ + ((List.range' i k).map
                (fun k : Nat => (unitBitmap b.policy_ keys (k : Int)).length + kBlockTrailerSize)).sum)
              % 2 ^ 64,
             (unitBitmap b.policy_ keys ((i + k : Nat) : Int)).length % 2 ^ 64⟩ := by
  induction todo with
  | zero =>
    intro i b _ _ _ ho
    refine ⟨by simp [WriteBitmap.loop], ?_, ?_⟩
    · simp only [WriteBitmap.loop, List.range'_zero, List.map_nil, List.sum_nil, Nat.add_zero]
      exact (Nat.mod_eq_of_lt ho).symm
    · intro k h hk
      simp [WriteBitmap.handles] at hk
  | succ todo ih =>
    intro i b h1 h2 hacc ho
    have hb := body_facts keys i b h1 h2
    obtain ⟨c1, c2, c3⟩ := body_accepts keys i b (2 * todo) h2
      (by rw [show 2 * todo + 2 = 2 * (todo + 1) by ring]; exact hacc)
    have ho1 : (WriteBitmap.body keys (i : Int) b).offset_ < 2 ^ 64 := by
      rw [c3]; exact Nat.mod_lt _ (by norm_num)
    have hcast : ((i : Nat) : Int) + 1 = ((i + 1 : Nat) : Int) := by push_cast; rfl
    obtain ⟨g1, g2, g3⟩ := ih (i + 1) _ hb.bhs hb.bitmap c2 ho1
    simp only [WriteBitmap.loop, WriteBitmap.handles]
    rw [hcast]
    rw [hb.policy] at g1 g2 g3
    refine ⟨?_, ?_, ?_⟩
    · rw [g1, c1]
      simp [List.range'_succ]
    · rw [g2, c3]
      simp only [List.range'_succ, List.map_cons, List.sum_cons]
      omega
    · intro k h hk
      cases k with
      | zero =>
        simp only [List.getElem?_cons_zero, Option.some.injEq] at hk
        rw [← hk, hb.handle]
        simp
      | succ k =>
        simp only [List.getElem?_cons_succ] at hk
        rw [g3 k h hk, c3]
        simp only [List.range'_succ, List.map_cons, List.sum_cons, BlockHandle.mk.injEq]
        constructor
        · omega
        · rw [show i + 1 + k = i + (k + 1) by omega]

/-! ## How many units a buffer of less than `2^32` bytes can describe -/

theorem EncodeVarint64_go_pos (fuel v : Nat) : 1 ≤ (EncodeVarint64.go fuel v).length := by
  cases fuel with
  | zero => simp [EncodeVarint64.go]
  | succ f =>
    simp only [EncodeVarint64.go]
    split <;> simp

/-- a value of at least `128^m` takes more than `m` bytes -/
theorem EncodeVarint64_go_length (m : Nat) : ∀ (fuel v : Nat), m ≤ fuel → 128 ^ m ≤ v →
    m + 1 ≤ (EncodeVarint64.go fuel v).length := by
  induction m with
  | zero => intro fuel v _ _; exact EncodeVarint64_go_pos fuel v
  | succ m ih =>
    intro fuel v hf hv
    obtain ⟨f, rfl⟩ : ∃ f, fuel = f + 1 := ⟨fuel - 1, by omega⟩
    have hp : 128 ^ (m + 1) = 128 ^ m * 128 := pow_succ 128 m
    have h1 : 1 ≤ 128 ^ m := Nat.one_le_pow _ _ (by norm_num)
    have h128 : 128 ≤ v := by nlinarith
    simp only [EncodeVarint64.go, ge_iff_le, h128, if_true, List.length_cons]
    have := ih f (v / 128) (by omega) (by
      rw [Nat.le_div_iff_mul_le (by norm_num)]
      omega)
    omega

theorem EncodeTo_length_two (h : BlockHandle) : 2 ≤ (h.EncodeTo []).length := by
  simp only [BlockHandle.EncodeTo, List.nil_append, List.length_append, EncodeVarint64]
  have a := EncodeVarint64_go_pos 9 (h.offset_ % 2 ^ 64)
  have b := EncodeVarint64_go_pos 9 (h.size_ % 2 ^ 64)
  omega

theorem EncodeTo_length_six (h : BlockHandle) (h1 : 2 ^ 28 ≤ h.offset_) (h2 : h.offset_ < 2 ^ 64) :
    6 ≤ (h.EncodeTo []).length := by
  simp only [BlockHandle.EncodeTo, List.nil_append, List.length_append, EncodeVarint64]
  have a := EncodeVarint64_go_length 4 9 (h.offset_ % 2 ^ 64) (by omega)
    (by rw [Nat.mod_eq_of_lt h2]; norm_num; omega)
  have b := EncodeVarint64_go_pos 9 (h.size_ % 2 ^ 64)
  omega

/-- records of handles whose offsets grow by at least 5 per unit: all take two bytes, those
from unit 53687092 on (offset at least `2^28`) take six -/
theorem encodeHandles_flatten_ge (hs : List BlockHandle) : ∀ s : Nat,
    (∀ (k : Nat) (h : BlockHandle), hs[k]? = some h →
      5 * (s + k) ≤ h.offset_ ∧ h.offset_ < 2 ^ 64) →
    6 * hs.length ≤ (encodeHandles hs).flatten.length + 4 * (53687092 - s) := by
  induction hs with
  | nil => intro s _; simp
  | cons h rest ih =>
    intro s hp
    have h0 := hp 0 h (by simp)
    have ih1 := ih (s + 1) (fun k g hg => by
      have := hp (k + 1) g (by simpa using hg)
      constructor <;> omega)
    have hlen2 := EncodeTo_length_two h
    simp only [encodeHandles, List.map_cons, List.flatten_cons, List.length_append,
      List.length_cons] at ih1 ⊢
    by_cases hs28 : 53687092 ≤ s
    · have := EncodeTo_length_six h (by omega) h0.2
      omega
    · omega

theorem sum_range'_mono (f : Nat → Nat) : ∀ (k n i : Nat), k ≤ n →
    ((List.range' i k).map f).sum ≤ ((List.range' i n).map f).sum := by
  intro k
  induction k with
  | zero => intro n i _; simp
  | succ k ih =>
    intro n i hk
    obtain ⟨m, rfl⟩ : ∃ m, n = m + 1 := ⟨n - 1, by omega⟩
    have := ih m (i + 1) (by omega)
    simp only [List.range'_succ, List.map_cons, List.sum_cons]
    omega

theorem sum_range'_ge (g : Nat → Nat) : ∀ (k i : Nat),
    5 * k ≤ ((List.range' i k).map (fun j : Nat => g j + 5)).sum := by
  intro k
  induction k with
  | zero => intro i; simp
  | succ k ih =>
    intro i
    have := ih (i + 1)
    simp only [List.range'_succ, List.map_cons, List.sum_cons]
    omega

theorem rawBlocks_length (f : Nat → Bytes) (t : Nat) (xs : List Nat) :
    ((xs.map (fun k : Nat => rawBlock (f k) t)).flatten).length
      = (xs.map (fun k : Nat => (f k).length + 5)).sum := by
  induction xs with
  | nil => rfl
  | cons x xs ih => simp [ih, rawBlock_length]

/-- With a sink that stores every append and no wrapping offset, a buffer shorter than `2^32`
bytes holds fewer than `2^29` units. -/
theorem faithful_unit_count (policy : FilterPolicy) (pre : Bytes) (E A : Nat) (N : Int)
    (keys : List Bytes)
    (hbuf : (layout (encodeHandles (WriteBitmap.handles keys N.toNat 0
      (UnitHandleBlockBuilder.new policy (StringSink pre) pre.length E A N))) E A).length < 2 ^ 32)
    (hfile : (WriteBitmap.loop keys N.toNat 0
      (UnitHandleBlockBuilder.new policy (StringSink pre) pre.length E A N)).file_.contents_.length
        < 2 ^ 64) :
    N.toNat < 2 ^ 29 := by
  have hacc : (UnitHandleBlockBuilder.new policy (StringSink pre) pre.length E A N).file_.accepts
      (2 * N.toNat) := fun q hq => nomatch hq
  obtain ⟨⟨suffix, hsuf⟩, _, _⟩ := loop_faithful keys N.toNat 0
    (UnitHandleBlockBuilder.new policy (StringSink pre) pre.length E A N) rfl rfl rfl rfl
    (by simpa using hfile)
  have hpre : pre.length < 2 ^ 64 := by
    have e := congrArg List.length hsuf
    simp only [Nat.cast_zero] at e
    rw [e] at hfile
    simp only [UnitHandleBlockBuilder.new, StringSink, List.length_append] at hfile
    omega
  obtain ⟨g1, _, g3⟩ := loop_contiguous keys N.toNat 0
    (UnitHandleBlockBuilder.new policy (StringSink pre) pre.length E A N) rfl rfl hacc hpre
  simp only [Nat.cast_zero] at g1 g3
  have hlenC := congrArg List.length g1
  rw [List.length_append, rawBlocks_length] at hlenC
  rw [hlenC] at hfile
  have key := encodeHandles_flatten_ge (WriteBitmap.handles keys N.toNat 0
      (UnitHandleBlockBuilder.new policy (StringSink pre) pre.length E A N)) 0
    (fun k h hk => by
      have hkl : k < N.toNat := by
        have := (List.getElem?_eq_some_iff.mp hk).1
        rwa [handles_length] at this
      have e := g3 k h hk
      have lo := sum_range'_ge (fun j : Nat => (unitBitmap policy keys (j : Int)).length) k 0
      have mono := sum_range'_mono
        (fun j : Nat => (unitBitmap policy keys (j : Int)).length + 5) k N.toNat 0 (by omega)
      have hfile1 : pre.length + ((List.range' 0 N.toNat).map
          (fun j : Nat => (unitBitmap policy keys (j : Int)).length + 5)).sum < 2 ^ 64 := hfile
      have e1 : h.offset_ = (pre.length + ((List.range' 0 k).map
          (fun j : Nat => (unitBitmap policy keys (j : Int)).length + 5)).sum) % 2 ^ 64 := by
        rw [e]; rfl
      rw [e1, Nat.mod_eq_of_lt (by omega)]
      constructor <;> omega)
  rw [layout_length] at hbuf
  have hl : (encodeHandles (WriteBitmap.handles keys N.toNat 0
      (UnitHandleBlockBuilder.new policy (StringSink pre) pre.length E A N))).length = N.toNat := by
    simp [encodeHandles, handles_length]
  rw [hl] at hbuf
  rw [handles_length] at key
  omega

/-! # The claims -/

/-- Claim C1 (round trip without false negatives). A fresh builder writes through a
`StringSink` (every append stored) whose length the shared offset counter equals. For a
non-empty key list, a unit count `N ≥ 1`, and a filter primitive whose `KeyMayMatch` accepts
every key of the list on the bitmap `CreateFilter` makes for each unit `i < N`: the reader
constructed over the buffer `Finish(keys)` returns and over the file the sink holds, with
`loaded_number = N`, exists, has all `N` units loaded, and `KeyMayMatch(k)` is true for every
key `k` of the list, with or without checksum verification. The two size hypotheses say that
no 32-bit offset of the buffer and no 64-bit file offset wraps. -/
theorem C1_round_trip (policy : FilterPolicy) (pre : Bytes) (E A : Nat) (N : Int)
    (keys : List Bytes) (port : Port) (options : ReadOptions)
    (hkeys : keys ≠ []) (hN : 1 ≤ N)
    (hmatch : ∀ k ∈ keys, ∀ i : Nat, i < N.toNat →
      policy.KeyMayMatch k (policy.CreateFilter keys (toInt32 keys.length) i) i = true)
    (hbuf : ((UnitHandleBlockBuilder.new policy (StringSink pre) pre.length E A N).Finish
      keys).1.length < 2 ^ 32)
    (hfile : ((UnitHandleBlockBuilder.new policy (StringSink pre) pre.length E A N).Finish
      keys).2.file_.contents_.length < 2 ^ 64) :
    ∃ r, UnitHandleBlockReader.new port policy
        (StringSource ((UnitHandleBlockBuilder.new policy (StringSink pre) pre.length E A N).Finish
          keys).2.file_.contents_) options
        ((UnitHandleBlockBuilder.new policy (StringSink pre) pre.length E A N).Finish keys).1 N
          = some r ∧
      r.ReturnLoadedUnitsNumber = N ∧ r.ReturnUnitsNumber = N ∧
      ∀ k ∈ keys, (r.KeyMayMatch k).1 = true := by
  have hk0 : keys.length ≠ 0 := by simpa using hkeys
  -- the sink after `Finish`
  have hC : ((UnitHandleBlockBuilder.new policy (StringSink pre) pre.length E A N).Finish
      keys).2.file_.contents_
      = (WriteBitmap.loop keys N.toNat 0
          (UnitHandleBlockBuilder.new policy (StringSink pre) pre.length E A N)).file_.contents_ := by
    simp [UnitHandleBlockBuilder.Finish, UnitHandleBlockBuilder.WriteBitmap, hk0,
      WritableFile.Sync, UnitHandleBlockBuilder.new]
  have hH : (UnitHandleBlockBuilder.new policy (StringSink pre) pre.length E A N).unitHandles keys
      = WriteBitmap.handles keys N.toNat 0
          (UnitHandleBlockBuilder.new policy (StringSink pre) pre.length E A N) := by
    simp [UnitHandleBlockBuilder.unitHandles, hk0, UnitHandleBlockBuilder.new]
  rw [hC] at hfile ⊢
  obtain ⟨_, _, hst⟩ := loop_faithful keys N.toNat 0
    (UnitHandleBlockBuilder.new policy (StringSink pre) pre.length E A N) rfl rfl rfl rfl
    (by simpa using hfile)
  rw [Finish_eq_layout] at hbuf ⊢
  rw [new_layout _ _ _ _ _ _ _ _ hbuf]
  have hcount := unitHandles_length
    (UnitHandleBlockBuilder.new policy (StringSink pre) pre.length E A N) keys hkeys
  have hcN : (UnitHandleBlockBuilder.new policy (StringSink pre) pre.length E A N).filter_unit_number_
      = N := rfl
  rw [hcN] at hcount
  have hlenc : (encodeHandles ((UnitHandleBlockBuilder.new policy (StringSink pre) pre.length E A
      N).unitHandles keys)).length = N.toNat := by
    simp [encodeHandles, hcount]
  have hb := unitHandles_bounded policy (StringSink pre) pre.length E A N keys
  have hN29 : N.toNat < 2 ^ 29 :=
    faithful_unit_count policy pre E A N keys (by rw [← hH]; exact hbuf) hfile
  obtain ⟨r1, hl1, hl2, hl3⟩ := LoadUnits_loop_full port _ E A
    (fun k => unitBitmap policy keys ((k : Nat) : Int)) _ hbuf hb hfile
    (by
      intro k h hk
      rw [hH] at hk
      have := hst k h hk
      simpa using this)
    (by rw [hcount]; omega)
    N.toNat 0
    { policy_ := policy,
      file_ := StringSource (WriteBitmap.loop keys N.toNat 0
        (UnitHandleBlockBuilder.new policy (StringSink pre) pre.length E A N)).file_.contents_,
      options_ := options,
      data_ := layout (encodeHandles ((UnitHandleBlockBuilder.new policy (StringSink pre)
        pre.length E A N).unitHandles keys)) E A,
      array_offset_ := (encodeHandles ((UnitHandleBlockBuilder.new policy (StringSink pre)
        pre.length E A N).unitHandles keys)).flatten.length,
      bitmaps_ := [], expiredTime_ := E % 2 ^ 64, access_frequnecy_ := A % 2 ^ 64,
      filter_unit_loaded_number_ := 0,
      filter_unit_number_ := ((encodeHandles ((UnitHandleBlockBuilder.new policy (StringSink pre)
        pre.length E A N).unitHandles keys)).length : Int),
      blockContents_ := BlockContents.init, blockHandle_ := BlockHandle.init }
    rfl rfl rfl (by rw [hcount]; omega)
  have hNn : ((N.toNat : Nat) : Int) = N := by omega
  have hframe := LoadUnits_loop_frame port _ _ _ _ _ hl1
  refine ⟨r1, ?_, ?_, ?_, ?_⟩
  · unfold UnitHandleBlockReader.LoadUnits
    simp only [addInt32_zero_left, hlenc, hNn, gt_iff_lt, lt_self_iff_false, if_false]
    simp only [hlenc, hNn, Nat.cast_zero] at hl1
    rw [hl1]
    rfl
  · unfold UnitHandleBlockReader.ReturnLoadedUnitsNumber
    rw [hl3]; simp only [Int.zero_add]; exact hNn
  · unfold UnitHandleBlockReader.ReturnUnitsNumber
    rw [hframe.num]; simp only [hlenc]; exact hNn
  · intro k hk
    unfold UnitHandleBlockReader.KeyMayMatch
    simp only [List.nil_append] at hl2
    have hne : r1.bitmaps_.isEmpty = false := by
      rw [hl2]
      have : 0 < N.toNat := by omega
      obtain ⟨m, hm⟩ := Nat.exists_eq_succ_of_ne_zero (Nat.pos_iff_ne_zero.mp this)
      rw [hm, List.range'_succ]
      rfl
    simp only [hne, Bool.false_eq_true, if_false]
    rw [KeyMayMatch_loop_iff]
    rintro ⟨jv, hjv⟩
    have hbl : r1.bitmaps_.length = N.toNat := by rw [hl2]; simp
    have hjl : jv < N.toNat := by omega
    have hget? : r1.bitmaps_[jv]? = some (unitBitmap policy keys ((jv : Nat) : Int)) := by
      rw [hl2]
      simp [List.getElem?_range', hjl]
    have hget : r1.bitmaps_.get ⟨jv, hjv⟩ = unitBitmap policy keys ((jv : Nat) : Int) := by
      rw [List.get_eq_getElem]
      exact List.getElem_eq_iff.mpr hget?
    rw [hget, hframe.policy, Int.zero_add]
    exact hmatch k hk jv hjl

/-- Claim C1 at a concrete input: two keys, two units, an empty sink, checksums verified. -/
theorem C1_round_trip_witness :
    ∃ r, UnitHandleBlockReader.new NoSnappy TestLenFilter
        (StringSource ((UnitHandleBlockBuilder.new TestLenFilter (StringSink []) 0 1000 7 2).Finish
          [[1, 2, 3], [4]]).2.file_.contents_) ⟨true, false⟩
        ((UnitHandleBlockBuilder.new TestLenFilter (StringSink []) 0 1000 7 2).Finish
          [[1, 2, 3], [4]]).1 2 = some r ∧
      r.ReturnLoadedUnitsNumber = 2 ∧ r.ReturnUnitsNumber = 2 ∧
      ∀ k ∈ [[1, 2, 3], [4]], (r.KeyMayMatch k).1 = true :=
  C1_round_trip TestLenFilter [] 1000 7 2 [[1, 2, 3], [4]] NoSnappy ⟨true, false⟩
    (by decide) (by decide) (by decide) (by decide) (by decide)

/-- Claim C2 evaluated on the code: a reader over a two-unit buffer is constructed with no
unit loaded; after `LoadUnits(1)` followed by `LoadUnits(1)`, both successful, the loaded
sequence is the bitmap of unit 0 twice (the file was read twice at offset 0), not the bitmaps
of units 0 and 1: the loop of `LoadUnits` restarts at index 0 instead of the next unloaded
index. -/
theorem C2_LoadUnits_reads_from_unit_zero :
    ((sampleReader 0).bind (fun r =>
      (UnitHandleBlockReader.LoadUnits NoSnappy r 1).bind (fun p =>
        (UnitHandleBlockReader.LoadUnits NoSnappy p.2 1).map (fun q =>
          (p.1, q.1, q.2.bitmaps_)))))
      = some (Status.OK, Status.OK, [[3, 1], [3, 1]]) ∧
    ((sampleReader 0).bind (fun r =>
      (UnitHandleBlockReader.LoadUnits NoSnappy r 1).bind (fun p =>
        (UnitHandleBlockReader.LoadUnits NoSnappy p.2 1).map (fun q =>
          (q.2.ReturnLoadedUnitsNumber, q.2.file_.reads_)))))
      = some (2, [(0, 7), (0, 7)]) ∧
    unitBitmap TestLenFilter [[1, 2, 3], [4]] 0 = [3, 1] ∧
    unitBitmap TestLenFilter [[1, 2, 3], [4]] 1 = [4, 2] := by
  decide

/-- Claim C3 (`KeyMayMatch` is the conjunction over the loaded units). For every reader state
and key, `KeyMayMatch(key)` is true exactly when the loaded sequence is non-empty and the
filter primitive accepts the key on the bitmap at every loaded position `i`, called with that
position as unit index; with nothing loaded (an empty sequence, or a loaded count of 0 that
agrees with the sequence) it is false for every key. -/
theorem C3_KeyMayMatch_conjunction (r : UnitHandleBlockReader) (key : Bytes) :
    ((r.KeyMayMatch key).1 = true ↔
      (0 < r.bitmaps_.length ∧
        ∀ i : Fin r.bitmaps_.length,
          r.policy_.KeyMayMatch key (r.bitmaps_.get i) (i.val : Int) = true)) ∧
    (r.bitmaps_.length = 0 → (r.KeyMayMatch key).1 = false) ∧
    (r.filter_unit_loaded_number_ = (r.bitmaps_.length : Int) → r.ReturnLoadedUnitsNumber = 0 →
      (r.KeyMayMatch key).1 = false) := by
  have hiff : ((r.KeyMayMatch key).1 = true ↔
      (0 < r.bitmaps_.length ∧
        ∀ i : Fin r.bitmaps_.length,
          r.policy_.KeyMayMatch key (r.bitmaps_.get i) (i.val : Int) = true)) := by
    rw [KeyMayMatch_fst, Bool.and_eq_true, KeyMayMatch_loop_iff]
    simp only [Int.zero_add, Bool.not_eq_true', List.isEmpty_eq_false, List.length_pos]
  have hzero : r.bitmaps_.length = 0 → (r.KeyMayMatch key).1 = false := by
    intro h0
    rw [KeyMayMatch_fst, List.length_eq_zero.mp h0]
    rfl
  refine ⟨hiff, hzero, ?_⟩
  intro hinv h0
  apply hzero
  unfold UnitHandleBlockReader.ReturnLoadedUnitsNumber at h0
  omega

/-- Claim C4 (footer arithmetic). For a non-empty key list and a unit count `N ≥ 0`, when the
buffer returned by a fresh builder's `Finish(keys)` is shorter than `2^32` bytes: the 32-bit
value `ao` at `S - 20` satisfies `S - 8 - 8 - 4 - ao = 4 * N` exactly, every reader
constructed over the buffer (any file, any initial load) reports `ReturnUnitsNumber() = N`,
and the reader constructed with no initial load exists. -/
theorem C4_footer_arithmetic (policy : FilterPolicy) (sink : WritableFile) (offset E A : Nat)
    (N : Int) (keys : List Bytes) (port : Port) (rpolicy : FilterPolicy)
    (file : RandomAccessFile) (options : ReadOptions) (loaded_number : Int)
    (hkeys : keys ≠ []) (hN : 0 ≤ N)
    (hlen : ((UnitHandleBlockBuilder.new policy sink offset E A N).Finish keys).1.length < 2 ^ 32) :
    (∃ ao : Nat,
      (ptrAt ((UnitHandleBlockBuilder.new policy sink offset E A N).Finish keys).1
        ((((UnitHandleBlockBuilder.new policy sink offset E A N).Finish keys).1.length : Int)
          - 8 - 8 - 4)).bind DecodeFixed32 = some ao ∧
      (((UnitHandleBlockBuilder.new policy sink offset E A N).Finish keys).1.length : Int)
          - 8 - 8 - 4 - (ao : Int) = 4 * N) ∧
    (∀ r, UnitHandleBlockReader.new port rpolicy file options
        ((UnitHandleBlockBuilder.new policy sink offset E A N).Finish keys).1 loaded_number = some r →
      r.ReturnUnitsNumber = N) ∧
    (∃ r, UnitHandleBlockReader.new port rpolicy file options
        ((UnitHandleBlockBuilder.new policy sink offset E A N).Finish keys).1 0 = some r ∧
      r.ReturnUnitsNumber = N) := by
  have hcount : ((((UnitHandleBlockBuilder.new policy sink offset E A N).unitHandles keys).length
      : Nat) : Int) = N := by
    rw [unitHandles_length _ _ hkeys]
    simp only [UnitHandleBlockBuilder.new]
    omega
  have hall : ∀ (ln : Int) (r : UnitHandleBlockReader),
      UnitHandleBlockReader.new port rpolicy file options
        ((UnitHandleBlockBuilder.new policy sink offset E A N).Finish keys).1 ln = some r →
      r.ReturnUnitsNumber = N := by
    intro ln r hr
    have := new_Finish policy sink offset E A N keys port rpolicy file options ln hlen r hr
    unfold UnitHandleBlockReader.ReturnUnitsNumber
    rw [this.2.2.1, hcount]
  refine ⟨?_, hall loaded_number, ?_⟩
  · rw [Finish_eq_layout] at hlen ⊢
    have hL := layout_length (encodeHandles
      ((UnitHandleBlockBuilder.new policy sink offset E A N).unitHandles keys)) E A
    have hf := footer_reads ((encodeHandles
      ((UnitHandleBlockBuilder.new policy sink offset E A N).unitHandles keys)).flatten ++
        ((recordOffsets 0 (encodeHandles
          ((UnitHandleBlockBuilder.new policy sink offset E A N).unitHandles keys))).map
            EncodeFixed32).flatten)
      ((encodeHandles
        ((UnitHandleBlockBuilder.new policy sink offset E A N).unitHandles keys)).flatten.length
          % 2 ^ 32) E A
    rw [← layout_eq_footer] at hf
    refine ⟨_, hf.2.2, ?_⟩
    have hN2 : (encodeHandles
        ((UnitHandleBlockBuilder.new policy sink offset E A N).unitHandles keys)).length
        = ((UnitHandleBlockBuilder.new policy sink offset E A N).unitHandles keys).length := by
      simp [encodeHandles]
    have hlt : (encodeHandles
        ((UnitHandleBlockBuilder.new policy sink offset E A N).unitHandles keys)).flatten.length
        + 4 * (((UnitHandleBlockBuilder.new policy sink offset E A N).unitHandles keys).length + 1)
        + 16 < 2 ^ 32 := by
      rw [← hN2, ← hL]; exact hlen
    have hN3 : (4 : Int) * N
        = 4 * ((((UnitHandleBlockBuilder.new policy sink offset E A N).unitHandles keys).length
            : Nat) : Int) := by rw [hcount]
    rw [hL, hN2, hN3]
    push_cast
    omega
  · rw [Finish_eq_layout] at hlen
    obtain ⟨r, hr⟩ := new_zero_isSome port rpolicy file options _ E A hlen
    rw [← Finish_eq_layout] at hr
    exact ⟨r, hr, hall 0 r hr⟩

/-- Claim C4 at a concrete input: two keys and two units give a reader that reports 2. -/
theorem C4_footer_arithmetic_witness :
    ∃ r, UnitHandleBlockReader.new NoSnappy TestLenFilter (StringSource []) ⟨true, false⟩
        ((UnitHandleBlockBuilder.new TestLenFilter (StringSink []) 0 1000 7 2).Finish
          [[1, 2, 3], [4]]).1 0 = some r ∧
      r.ReturnUnitsNumber = 2 :=
  (C4_footer_arithmetic TestLenFilter (StringSink []) 0 1000 7 2 [[1, 2, 3], [4]] NoSnappy
    TestLenFilter (StringSource []) ⟨true, false⟩ 0 (by decide) (by decide) (by decide)).2.2

/-- Claim C5 (location-record round trip). For the buffer of `Finish(keys)` on a non-empty
key list with unit count `N`, shorter than `2^32` bytes, a reader constructed over it and an
index `i < N` with `i < 2^29` (the `int` product `index * 4` of `ReturnBlockHandle` stays in
the range of `int`): the 32-bit values at `array_offset_ + 4 i` and `array_offset_ + 4 i + 4`
are the offsets at which the encoded records `i` and `i + 1` start (for `i = N - 1` the second
read is the index-start field at `S - 20`), the slice between them is exactly the encoding of
the handle `WriteRawBlock` produced for unit `i`, and `ReturnBlockHandle(i)` is that handle. -/
theorem C5_location_record_round_trip (policy : FilterPolicy) (sink : WritableFile)
    (offset E A : Nat) (N : Int) (keys : List Bytes) (port : Port) (rpolicy : FilterPolicy)
    (file : RandomAccessFile) (options : ReadOptions) (loaded_number : Int)
    (r : UnitHandleBlockReader) (i : Nat)
    (hkeys : keys ≠ []) (hi : (i : Int) < N) (hi29 : i < 2 ^ 29)
    (hlen : ((UnitHandleBlockBuilder.new policy sink offset E A N).Finish keys).1.length < 2 ^ 32)
    (hr : UnitHandleBlockReader.new port rpolicy file options
      ((UnitHandleBlockBuilder.new policy sink offset E A N).Finish keys).1 loaded_number = some r) :
    ∃ h : BlockHandle,
      ((UnitHandleBlockBuilder.new policy sink offset E A N).unitHandles keys)[i]? = some h ∧
      (ptrAt r.data_ ((r.array_offset_ : Int) + (i : Int) * 4)).bind DecodeFixed32
        = some ((encodeHandles ((UnitHandleBlockBuilder.new policy sink offset E A N).unitHandles
            keys)).take i).flatten.length ∧
      (ptrAt r.data_ ((r.array_offset_ : Int) + (i : Int) * 4 + 4)).bind DecodeFixed32
        = some ((encodeHandles ((UnitHandleBlockBuilder.new policy sink offset E A N).unitHandles
            keys)).take (i + 1)).flatten.length ∧
      ((i : Int) + 1 = N →
        (r.array_offset_ : Int) + (i : Int) * 4 + 4 = (r.data_.length : Int) - 8 - 8 - 4) ∧
      sliceAt r.data_
        ((encodeHandles ((UnitHandleBlockBuilder.new policy sink offset E A N).unitHandles
            keys)).take i).flatten.length
        ((((encodeHandles ((UnitHandleBlockBuilder.new policy sink offset E A N).unitHandles
            keys)).take (i + 1)).flatten.length + 2 ^ 32
          - ((encodeHandles ((UnitHandleBlockBuilder.new policy sink offset E A N).unitHandles
            keys)).take i).flatten.length) % 2 ^ 32) = some (h.EncodeTo []) ∧
      r.ReturnBlockHandle i = some h := by
  have hnf := new_Finish policy sink offset E A N keys port rpolicy file options loaded_number
    hlen r hr
  have hcount := unitHandles_length (UnitHandleBlockBuilder.new policy sink offset E A N) keys hkeys
  have hcN : (UnitHandleBlockBuilder.new policy sink offset E A N).filter_unit_number_ = N := rfl
  rw [hcN] at hcount
  have hil : i < ((UnitHandleBlockBuilder.new policy sink offset E A N).unitHandles keys).length := by
    rw [hcount]; omega
  have hget : ((UnitHandleBlockBuilder.new policy sink offset E A N).unitHandles keys)[i]?
      = some (((UnitHandleBlockBuilder.new policy sink offset E A N).unitHandles keys)[i]) :=
    List.getElem?_eq_getElem hil
  rw [Finish_eq_layout] at hlen
  have hb := unitHandles_bounded policy sink offset E A N keys
  obtain ⟨d1, d2, d3, d4⟩ := ReturnBlockHandle_layout r _ E A hnf.1 hnf.2.1 hlen hb i _ hget hi29
  refine ⟨_, hget, d1, d2, ?_, d3, d4⟩
  intro hlast
  rw [hnf.1, layout_length, hnf.2.1]
  have : (encodeHandles ((UnitHandleBlockBuilder.new policy sink offset E A N).unitHandles
      keys)).length = i + 1 := by
    simp only [encodeHandles, List.length_map, hcount]; omega
  rw [this]
  push_cast
  ring

/-- Claim C5 at a concrete input: unit 1 of the two-unit buffer is located at (7, 2). -/
theorem C5_location_record_round_trip_witness :
    ∃ r, UnitHandleBlockReader.new NoSnappy TestLenFilter (StringSource []) ⟨true, false⟩
        ((UnitHandleBlockBuilder.new TestLenFilter (StringSink []) 0 1000 7 2).Finish
          [[1, 2, 3], [4]]).1 0 = some r ∧
      r.ReturnBlockHandle 1 = some ⟨7, 2⟩ := by
  have hsome : (UnitHandleBlockReader.new NoSnappy TestLenFilter (StringSource []) ⟨true, false⟩
      ((UnitHandleBlockBuilder.new TestLenFilter (StringSink []) 0 1000 7 2).Finish
        [[1, 2, 3], [4]]).1 0).isSome = true := by decide
  obtain ⟨r, hr⟩ := Option.isSome_iff_exists.mp hsome
  obtain ⟨h, h1, _, _, _, _, h6⟩ := C5_location_record_round_trip TestLenFilter (StringSink []) 0
    1000 7 2 [[1, 2, 3], [4]] NoSnappy TestLenFilter (StringSource []) ⟨true, false⟩ 0 r 1
    (by decide) (by decide) (by decide) (by decide) hr
  have h2 : ((UnitHandleBlockBuilder.new TestLenFilter (StringSink []) 0 1000 7 2).unitHandles
      [[1, 2, 3], [4]])[1]? = some ⟨7, 2⟩ := by decide
  rw [h2] at h1
  cases h1
  exact ⟨r, hr, h6⟩

/-- Claim C6 (access-frequency accounting). For every reader state whose counter is a 64-bit
value and every list of `k` keys, after calling `KeyMayMatch` on each key in turn (whatever the
answers, whatever is loaded) the counter is its old value plus `k` modulo `2^64`; `LoadUnits`,
`EvictUnits` and `UpdateCurrentTime` leave it unchanged. `IsCold` is a `const` member, a
function of the state that returns no new state. -/
theorem C6_access_frequency_accounting (port : Port) (lifeTime : Nat) (r : UnitHandleBlockReader)
    (keys : List Bytes) (n : Int) (t : Nat) (hw : r.access_frequnecy_ < 2 ^ 64) :
    (keys.foldl (fun r k => (r.KeyMayMatch k).2) r).access_frequnecy_
      = (r.access_frequnecy_ + keys.length) % 2 ^ 64 ∧
    (∀ p ∈ UnitHandleBlockReader.LoadUnits port r n, p.2.access_frequnecy_ = r.access_frequnecy_) ∧
    (r.EvictUnits n).access_frequnecy_ = r.access_frequnecy_ ∧
    (r.UpdateCurrentTime lifeTime t).access_frequnecy_ = r.access_frequnecy_ := by
  refine ⟨?_, ?_, ?_, rfl⟩
  · obtain ⟨h1, h2⟩ := foldl_KeyMayMatch_freq keys r
    by_cases hk : keys = []
    · subst hk
      simp only [List.foldl_nil, List.length_nil, Nat.add_zero]
      exact (Nat.mod_eq_of_lt hw).symm
    · rw [← h1]
      exact (Nat.mod_eq_of_lt (h2 hk)).symm
  · rintro ⟨s, r1⟩ hp
    exact (LoadUnits_frame port r n s r1 (by simpa using hp)).freq
  · unfold UnitHandleBlockReader.EvictUnits
    split
    · rw [EvictUnits_loop_eq]
    · rfl

/-- Claim C6 at a concrete input: three queries move the counter from 7 to 10. -/
theorem C6_access_frequency_accounting_witness :
    ([[1, 2, 3], [9, 9], [4]].foldl (fun r k => (r.KeyMayMatch k).2) sampleLoaded).access_frequnecy_
      = (7 + 3) % 2 ^ 64 :=
  (C6_access_frequency_accounting NoSnappy 30 sampleLoaded [[1, 2, 3], [9, 9], [4]] 1 0
    (by decide)).1

/-- Claim C7 as amended (monotone tightening while a unit stays loaded). For every reader
state, key and `n`: (a) if `KeyMayMatch(key)` is true and `0 ≤ n <` the number of loaded
bitmaps, it is still true after `EvictUnits(n)`; (b) if `KeyMayMatch(key)` is false while at
least one bitmap is loaded, it is still false after any `LoadUnits(n)` that returns. -/
theorem C7_monotone_tightening (port : Port) (r : UnitHandleBlockReader) (key : Bytes) (n : Int) :
    (0 ≤ n ∧ n < (r.bitmaps_.length : Int) → (r.KeyMayMatch key).1 = true →
      ((r.EvictUnits n).KeyMayMatch key).1 = true) ∧
    (r.bitmaps_ ≠ [] → (r.KeyMayMatch key).1 = false →
      ∀ s r1, UnitHandleBlockReader.LoadUnits port r n = some (s, r1) →
        (r1.KeyMayMatch key).1 = false) := by
  constructor
  · rintro ⟨h0, hn⟩ ht
    have hcond : (r.bitmaps_.length : Int) > n % 2 ^ 64 := by omega
    unfold UnitHandleBlockReader.EvictUnits
    rw [if_pos hcond, EvictUnits_loop_eq]
    rw [KeyMayMatch_fst, Bool.and_eq_true] at ht ⊢
    simp only
    obtain ⟨_, h2⟩ := ht
    constructor
    · have : 0 < r.bitmaps_.length - n.toNat := by omega
      cases hb : r.bitmaps_.take (r.bitmaps_.length - n.toNat) with
      | nil =>
        have hl := congrArg List.length hb
        simp only [List.length_take, List.length_nil] at hl
        omega
      | cons _ _ => rfl
    · apply KeyMayMatch_loop_append r.policy_ key _ (r.bitmaps_.drop (r.bitmaps_.length - n.toNat))
      rw [List.take_append_drop]
      exact h2
  · intro hne hf s r1 hl
    have hfr := LoadUnits_frame port r n s r1 hl
    obtain ⟨added, ha, _⟩ := hfr.grows
    rw [KeyMayMatch_fst] at hf ⊢
    rw [hfr.policy, ha]
    cases hb : r.bitmaps_ with
    | nil => exact absurd hb hne
    | cons x xs =>
      rw [hb] at hf
      simp only [List.isEmpty_cons, Bool.not_false, Bool.true_and, List.cons_append] at hf ⊢
      by_contra hc
      have hc2 : UnitHandleBlockReader.KeyMayMatch.loop r.policy_ key ((x :: xs) ++ added) 0 = true := by
        simpa using hc
      have := KeyMayMatch_loop_append r.policy_ key (x :: xs) added 0 hc2
      rw [this] at hf
      exact absurd hf (by simp)

/-- Claim C7 as amended, at concrete inputs: evicting one of two units keeps a hit, and a
miss on a loaded reader stays a miss after `LoadUnits(0)`. -/
theorem C7_monotone_tightening_witness :
    ((sampleLoaded.EvictUnits 1).KeyMayMatch [1, 2, 3]).1 = true ∧
    (sampleLoaded.KeyMayMatch [9, 9]).1 = false :=
  ⟨(C7_monotone_tightening NoSnappy sampleLoaded [1, 2, 3] 1).1 (by decide) (by decide),
   (C7_monotone_tightening NoSnappy sampleLoaded [9, 9] 0).2 (by decide) (by decide)
     Status.OK sampleLoaded (by rfl)⟩

/-- Claim C7 as stated fails: with one unit loaded `KeyMayMatch` is true for a member key and
false after `EvictUnits(1)`; with no unit loaded it is false and true after a successful
`LoadUnits(1)`. -/
theorem C7_counterexample :
    (sampleReader 1).map (fun r =>
        ((r.KeyMayMatch [1, 2, 3]).1, ((r.EvictUnits 1).KeyMayMatch [1, 2, 3]).1))
      = some (true, false) ∧
    (sampleReader 0).bind (fun r =>
        (UnitHandleBlockReader.LoadUnits NoSnappy r 1).map (fun p =>
          ((r.KeyMayMatch [1, 2, 3]).1, p.1, (p.2.KeyMayMatch [1, 2, 3]).1)))
      = some (false, Status.OK, true) := by
  decide

/-- Claim C8 as amended (an empty key set reads as false). For a fresh builder with any unit
count, `Finish` on the empty key list returns only the index-start field (value 0), the
expiration time and the access frequency; every reader constructed over that buffer (any
file, any initial load) exists, has zero units and none loaded, and `KeyMayMatch(key)` is
false for every key. -/
theorem C8_empty_key_set_reads_false (policy : FilterPolicy) (sink : WritableFile)
    (offset E A : Nat) (N : Int) (port : Port) (rpolicy : FilterPolicy) (file : RandomAccessFile)
    (options : ReadOptions) (loaded_number : Int) (key : Bytes) :
    ((UnitHandleBlockBuilder.new policy sink offset E A N).Finish []).1
      = EncodeFixed32 0 ++ EncodeFixed64 E ++ EncodeFixed64 A ∧
    ∃ r, UnitHandleBlockReader.new port rpolicy file options
        ((UnitHandleBlockBuilder.new policy sink offset E A N).Finish []).1 loaded_number = some r ∧
      r.ReturnUnitsNumber = 0 ∧ r.ReturnLoadedUnitsNumber = 0 ∧ r.bitmaps_ = [] ∧
      (r.KeyMayMatch key).1 = false := by
  refine ⟨Finish_nil policy sink offset E A N, ?_⟩
  rw [Finish_nil_layout]
  have hlen : (layout [] E A).length < 2 ^ 32 := by
    rw [layout_length]; simp
  rw [new_layout _ _ _ _ _ _ _ _ hlen]
  unfold UnitHandleBlockReader.LoadUnits
  simp only [List.length_nil, Nat.cast_zero, addInt32_zero_left]
  by_cases hp : loaded_number > 0
  · rw [if_pos hp]
    exact ⟨_, rfl, rfl, rfl, rfl, rfl⟩
  · rw [if_neg hp]
    have : loaded_number.toNat = 0 := by omega
    rw [this]
    exact ⟨_, rfl, rfl, rfl, rfl, rfl⟩

/-- Claim C8 as stated fails: the reader over the buffer of an empty key set answers false
for the key "foo". -/
theorem C8_counterexample :
    (UnitHandleBlockReader.new NoSnappy TestLenFilter (StringSource []) ⟨true, false⟩
        ((UnitHandleBlockBuilder.new TestLenFilter (StringSink []) 0 1000 7 2).Finish []).1 0).map
      (fun r => (r.KeyMayMatch [102, 111, 111]).1) = some false := by
  decide

/-- Claim C9 as amended (`Finish` on an empty key set). For every builder configuration,
`Finish` on the empty key list returns the 20 bytes made of the index-start field (value 0),
the expiration time and the access frequency, appends nothing to the sink and leaves the
shared offset unchanged. -/
theorem C9_Finish_empty_key_set (policy : FilterPolicy) (sink : WritableFile)
    (offset E A : Nat) (N : Int) :
    ((UnitHandleBlockBuilder.new policy sink offset E A N).Finish []).1
      = EncodeFixed32 0 ++ EncodeFixed64 E ++ EncodeFixed64 A ∧
    ((UnitHandleBlockBuilder.new policy sink offset E A N).Finish []).1.length = 20 ∧
    ((UnitHandleBlockBuilder.new policy sink offset E A N).Finish []).2.file_ = sink ∧
    ((UnitHandleBlockBuilder.new policy sink offset E A N).Finish []).2.offset_ = offset := by
  refine ⟨Finish_nil policy sink offset E A N, ?_, rfl, rfl⟩
  rw [Finish_nil]
  rfl

/-- Claim C9 as stated fails: `Finish` on the empty key list does not return the empty
string. -/
theorem C9_counterexample :
    ((UnitHandleBlockBuilder.new TestLenFilter (StringSink []) 0 1000 7 2).Finish []).1 ≠ [] := by
  decide

/-- Claim C10 (coldness threshold). For every reader state, lifetime constant `L` and `t0`
with `t0 + L < 2^64`, after `UpdateCurrentTime(t0)` the predicate `IsCold(t)` is false for
every `t < t0 + L` and true for every `t ≥ t0 + L`. `IsCold` is a `const` member, a function
of the state that returns no new state. -/
theorem C10_coldness_threshold (lifeTime : Nat) (r : UnitHandleBlockReader) (t0 t : Nat)
    (h : t0 + lifeTime < 2 ^ 64) :
    (t < t0 + lifeTime → (r.UpdateCurrentTime lifeTime t0).IsCold t = false) ∧
    (t0 + lifeTime ≤ t → (r.UpdateCurrentTime lifeTime t0).IsCold t = true) := by
  unfold UnitHandleBlockReader.IsCold UnitHandleBlockReader.UpdateCurrentTime
  simp only [Nat.mod_eq_of_lt h, ge_iff_le, decide_eq_false_iff_not, not_le, decide_eq_true_eq]
  exact ⟨fun h => h, fun h => h⟩

/-- Claim C10 at a concrete input: lifetime 30 set at time 1000 is warm at 1029, cold at 1030. -/
theorem C10_coldness_threshold_witness :
    (sampleLoaded.UpdateCurrentTime 30 1000).IsCold 1029 = false ∧
    (sampleLoaded.UpdateCurrentTime 30 1000).IsCold 1030 = true :=
  ⟨(C10_coldness_threshold 30 sampleLoaded 1000 1029 (by decide)).1 (by decide),
   (C10_coldness_threshold 30 sampleLoaded 1000 1030 (by decide)).2 (by decide)⟩

/-- Claim C11 as amended (the expiration timestamp is overwritten, not raised). For every
reader state and `current_time`, after `UpdateCurrentTime(current_time)` the expiration
timestamp is `(current_time + L) mod 2^64`; it is greater than or equal to its value before
the call whenever that value is at most `current_time + L < 2^64`; and `LoadUnits`,
`EvictUnits` and `KeyMayMatch` leave it unchanged (`IsCold` returns no state). -/
theorem C11_expiration_overwritten (port : Port) (lifeTime : Nat) (r : UnitHandleBlockReader)
    (current_time : Nat) (n : Int) (key : Bytes) :
    (r.UpdateCurrentTime lifeTime current_time).expiredTime_ = (current_time + lifeTime) % 2 ^ 64 ∧
    (r.expiredTime_ ≤ current_time + lifeTime → current_time + lifeTime < 2 ^ 64 →
      r.expiredTime_ ≤ (r.UpdateCurrentTime lifeTime current_time).expiredTime_) ∧
    (∀ p ∈ UnitHandleBlockReader.LoadUnits port r n, p.2.expiredTime_ = r.expiredTime_) ∧
    (r.EvictUnits n).expiredTime_ = r.expiredTime_ ∧
    (r.KeyMayMatch key).2.expiredTime_ = r.expiredTime_ := by
  refine ⟨rfl, ?_, ?_, ?_, ?_⟩
  · intro h1 h2
    unfold UnitHandleBlockReader.UpdateCurrentTime
    simp only [Nat.mod_eq_of_lt h2]
    exact h1
  · rintro ⟨s, r1⟩ hp
    exact (LoadUnits_frame port r n s r1 (by simpa using hp)).expired
  · unfold UnitHandleBlockReader.EvictUnits
    split
    · rw [EvictUnits_loop_eq]
    · rfl
  · rw [KeyMayMatch_snd]

/-- Claim C11 as amended, at a concrete input: a refresh at time 2000 with lifetime 30 raises
the expiration of the sample reader from 1000 to 2030. -/
theorem C11_expiration_overwritten_witness :
    sampleLoaded.expiredTime_ ≤ (sampleLoaded.UpdateCurrentTime 30 2000).expiredTime_ :=
  (C11_expiration_overwritten NoSnappy 30 sampleLoaded 2000 0 []).2.1 (by decide) (by decide)

/-- Claim C11 as stated fails: a refresh with an earlier time lowers the expiration timestamp
of the sample reader from 1000 to 30. -/
theorem C11_counterexample :
    (sampleLoaded.UpdateCurrentTime 30 0).expiredTime_ < sampleLoaded.expiredTime_ := by
  decide

/-- Claim C12 evaluated on the code. The guard of `LoadUnits` adds
`filter_unit_loaded_number_ + number` in `int`. While that sum is a value of `int`, a request
with `loaded_count + n > unit_count` is rejected as the claim says: the Corruption status is
returned and the reader is exactly as before (no read issued, count and sequence unchanged).
With one unit of two loaded and `n = 2147483647` the sum `1 + n` exceeds the unit count but
wraps to `-2147483648`: the guard does not fire, the file is read twice more, the loaded count
grows to 2 and the status returned is the error of the second read. -/
theorem C12_LoadUnits_guard_overflow :
    (∀ (port : Port) (r : UnitHandleBlockReader) (n : Int),
      r.filter_unit_loaded_number_ + n > r.filter_unit_number_ →
      -(2 ^ 31) ≤ r.filter_unit_loaded_number_ + n → r.filter_unit_loaded_number_ + n < 2 ^ 31 →
      UnitHandleBlockReader.LoadUnits port r n
        = some (Status.Corruption "load too many units", r)) ∧
    addInt32 1 2147483647 = -2147483648 ∧
    (UnitHandleBlockReader.LoadUnits NoSnappy sampleTruncated 1).map (fun p =>
        (p.1, p.2.ReturnLoadedUnitsNumber, p.2.ReturnUnitsNumber, p.2.file_.reads_))
      = some (Status.OK, 1, 2, [(0, 7)]) ∧
    (UnitHandleBlockReader.LoadUnits NoSnappy sampleTruncated 1).bind (fun p =>
      (UnitHandleBlockReader.LoadUnits NoSnappy p.2 2147483647).map (fun q =>
        (q.1, q.2.ReturnLoadedUnitsNumber, q.2.file_.reads_)))
      = some (Status.InvalidArgument "invalid Read offset", 2, [(0, 7), (0, 7), (7, 7)]) ∧
    (UnitHandleBlockReader.LoadUnits NoSnappy sampleTruncated 1).bind (fun p =>
      (UnitHandleBlockReader.LoadUnits NoSnappy p.2 2147483647).map (fun q => q.2.bitmaps_))
      = some [[3, 1], [3, 1]] := by
  refine ⟨?_, by decide, by decide, by decide, by decide⟩
  intro port r n h hlo hhi
  unfold UnitHandleBlockReader.LoadUnits
  rw [addInt32_exact _ _ hlo hhi, if_pos h]

/-- Claim C12 at a concrete input without overflow: one more unit than the two the sample
reader has is rejected, the reader unchanged. -/
theorem C12_LoadUnits_guard_overflow_witness :
    UnitHandleBlockReader.LoadUnits NoSnappy sampleLoaded 1
      = some (Status.Corruption "load too many units", sampleLoaded) :=
  C12_LoadUnits_guard_overflow.1 NoSnappy sampleLoaded 1 (by decide) (by decide) (by decide)

/-- Claim C13 (`EvictUnits` drops from the end). For every reader state whose loaded sequence
`B` has length `m` and whose counter is `m`, and every `n ≥ 0` (a machine integer), after
`EvictUnits(n)` the loaded sequence is the first `m - min(n, m)` entries of `B` and
`ReturnLoadedUnitsNumber()` is `m - min(n, m)`; for `n ≥ m` nothing stays loaded. -/
theorem C13_EvictUnits_drops_from_end (r : UnitHandleBlockReader) (n : Int) (h0 : 0 ≤ n)
    (hn : n < 2 ^ 64) (hinv : r.filter_unit_loaded_number_ = (r.bitmaps_.length : Int)) :
    (r.EvictUnits n).bitmaps_
        = r.bitmaps_.take (r.bitmaps_.length - min n.toNat r.bitmaps_.length) ∧
    (r.EvictUnits n).ReturnLoadedUnitsNumber
        = (r.bitmaps_.length : Int) - min n (r.bitmaps_.length : Int) ∧
    ((r.bitmaps_.length : Int) ≤ n →
      (r.EvictUnits n).bitmaps_ = [] ∧ (r.EvictUnits n).ReturnLoadedUnitsNumber = 0) := by
  rw [EvictUnits_eq r n h0 hn]
  unfold UnitHandleBlockReader.ReturnLoadedUnitsNumber
  simp only
  refine ⟨?_, ?_, ?_⟩
  · congr 1; omega
  · split_ifs with hc <;> omega
  · intro hle
    have hc : ¬ (r.bitmaps_.length : Int) > n % 2 ^ 64 := by omega
    have : r.bitmaps_.length - n.toNat = 0 := by omega
    rw [if_neg hc, this, List.take_zero]
    exact ⟨rfl, rfl⟩

/-- Claim C13 at a concrete input: evicting one of the two loaded units keeps the first. -/
theorem C13_EvictUnits_drops_from_end_witness :
    (sampleLoaded.EvictUnits 1).bitmaps_ = [[3, 1]] ∧
    (sampleLoaded.EvictUnits 1).ReturnLoadedUnitsNumber = 1 :=
  ⟨(C13_EvictUnits_drops_from_end sampleLoaded 1 (by decide) (by decide) (by decide)).1,
   (C13_EvictUnits_drops_from_end sampleLoaded 1 (by decide) (by decide) (by decide)).2.1⟩

/-- Claim C14 evaluated on the code: with a sink whose every append fails, `WriteRawBlock`
returns the failure status, yet `Finish` returns a normally formed 32-byte buffer whose two
location records both name offset 0 and size 2, while the sink holds no byte. -/
theorem C14_Finish_ignores_failed_append :
    ((UnitHandleBlockBuilder.new TestLenFilter failingSink 0 1000 7 2).WriteRawBlock [3, 1]
        kNoCompression BlockHandle.init).1 = Status.IOError "append failed" ∧
    ((UnitHandleBlockBuilder.new TestLenFilter failingSink 0 1000 7 2).Finish [[1, 2, 3], [4]]).1
      = [0, 2, 0, 2, 0, 0, 0, 0, 2, 0, 0, 0, 4, 0, 0, 0, 232, 3, 0, 0, 0, 0, 0, 0,
         7, 0, 0, 0, 0, 0, 0, 0] ∧
    ((UnitHandleBlockBuilder.new TestLenFilter failingSink 0 1000 7 2).Finish
        [[1, 2, 3], [4]]).2.file_.contents_ = [] ∧
    (UnitHandleBlockBuilder.new TestLenFilter failingSink 0 1000 7 2).unitHandles [[1, 2, 3], [4]]
      = [⟨0, 2⟩, ⟨0, 2⟩] := by
  decide

/-- Claim C15 as amended (footers are not validated at construction). For every byte buffer
of size `S ≥ 20` with the 32-bit value `ao` at `S - 20`: every reader constructed over it has
the unit count `(int)(((S - 8 - 8 - 4 - ao) mod 2^64) / 4)`, wrapped unsigned arithmetic and
truncating division included, and the reader constructed with no initial load exists, with
nothing loaded; no buffer of that size is reported as corrupt. -/
theorem C15_footer_not_validated (port : Port) (policy : FilterPolicy) (file : RandomAccessFile)
    (options : ReadOptions) (contents : Bytes) (loaded_number : Int)
    (hS : 20 ≤ contents.length) :
    ∃ ao : Nat,
      (ptrAt contents ((contents.length : Int) - 8 - 8 - 4)).bind DecodeFixed32 = some ao ∧
      (∀ r, UnitHandleBlockReader.new port policy file options contents loaded_number = some r →
        r.ReturnUnitsNumber
          = toInt32 (((((contents.length : Int) - 8 - 8 - 4 - (ao : Int)) % 2 ^ 64) / 4).toNat)) ∧
      ∃ r, UnitHandleBlockReader.new port policy file options contents 0 = some r ∧
        r.ReturnLoadedUnitsNumber = 0 ∧
        r.ReturnUnitsNumber
          = toInt32 (((((contents.length : Int) - 8 - 8 - 4 - (ao : Int)) % 2 ^ 64) / 4).toNat) := by
  obtain ⟨af, et, ao, h1, h2, h3⟩ := footer_reads_isSome contents hS
  have hall : ∀ (ln : Int) (r : UnitHandleBlockReader),
      UnitHandleBlockReader.new port policy file options contents ln = some r →
      r.ReturnUnitsNumber
        = toInt32 (((((contents.length : Int) - 8 - 8 - 4 - (ao : Int)) % 2 ^ 64) / 4).toNat) := by
    intro ln r hr
    obtain ⟨af2, et2, ao2, s, _, _, g3, hl⟩ := new_some port policy file options contents ln r hr
    rw [h3] at g3
    cases g3
    have hfr := LoadUnits_frame _ _ _ _ _ hl
    unfold UnitHandleBlockReader.ReturnUnitsNumber
    rw [hfr.num]
  refine ⟨ao, h3, hall loaded_number, ?_⟩
  obtain ⟨r, hr, _, hz⟩ := new_zero_of_length port policy file options contents hS
  exact ⟨r, hr, hz, hall 0 r hr⟩

/-- Claim C15 as amended, at a concrete input: a 21-byte buffer, one stray byte before the
footer, gives a reader with unit count 0. -/
theorem C15_footer_not_validated_witness :
    ∃ r, UnitHandleBlockReader.new NoSnappy TestLenFilter (StringSource []) ⟨true, false⟩
        ([9] ++ EncodeFixed32 0 ++ EncodeFixed64 1000 ++ EncodeFixed64 7) 0 = some r ∧
      r.ReturnLoadedUnitsNumber = 0 := by
  obtain ⟨ao, _, _, r, hr, hz, _⟩ := C15_footer_not_validated NoSnappy TestLenFilter
    (StringSource []) ⟨true, false⟩ ([9] ++ EncodeFixed32 0 ++ EncodeFixed64 1000
      ++ EncodeFixed64 7) 0 (by decide)
  exact ⟨r, hr, hz⟩

/-- Claim C15 as stated fails: over a 21-byte buffer (`S - 20 - ao = 1`, not a multiple of 4)
and over a 20-byte buffer whose index-start field is 4 (`S - 20 - ao = -4`) the constructor
returns a reader, with unit counts 0 (truncating division) and -1 (wrapped arithmetic). -/
theorem C15_counterexample :
    (UnitHandleBlockReader.new NoSnappy TestLenFilter (StringSource []) ⟨true, false⟩
        ([9] ++ EncodeFixed32 0 ++ EncodeFixed64 1000 ++ EncodeFixed64 7) 0).map
      (fun r => r.ReturnUnitsNumber) = some 0 ∧
    (UnitHandleBlockReader.new NoSnappy TestLenFilter (StringSource []) ⟨true, false⟩
        (EncodeFixed32 4 ++ EncodeFixed64 1000 ++ EncodeFixed64 7) 0).map
      (fun r => r.ReturnUnitsNumber) = some (-1) := by
  decide

/-- Claim C16 (footer temperature round trip). For a fresh builder with expiration time `E`
and access-frequency seed `A` (64-bit values) and every key list: the last 8 bytes of the
buffer `Finish` returns are the fixed64 encoding of `A`, the 8 bytes before them that of `E`,
the 4 bytes before those the fixed32 encoding of the index-start offset (the length of the
encoded location records); every reader constructed over the buffer starts with expiration
timestamp `E` and access frequency `A`, so that `IsCold(t)` holds exactly when `t ≥ E`; and
the reader constructed with no initial load exists. -/
theorem C16_footer_temperature_round_trip (policy : FilterPolicy) (sink : WritableFile)
    (offset E A : Nat) (N : Int) (keys : List Bytes) (port : Port) (rpolicy : FilterPolicy)
    (file : RandomAccessFile) (options : ReadOptions) (loaded_number : Int)
    (hE : E < 2 ^ 64) (hA : A < 2 ^ 64) :
    ((UnitHandleBlockBuilder.new policy sink offset E A N).Finish keys).1.drop
        (((UnitHandleBlockBuilder.new policy sink offset E A N).Finish keys).1.length - 8)
      = EncodeFixed64 A ∧
    (((UnitHandleBlockBuilder.new policy sink offset E A N).Finish keys).1.drop
        (((UnitHandleBlockBuilder.new policy sink offset E A N).Finish keys).1.length - 16)).take 8
      = EncodeFixed64 E ∧
    (((UnitHandleBlockBuilder.new policy sink offset E A N).Finish keys).1.drop
        (((UnitHandleBlockBuilder.new policy sink offset E A N).Finish keys).1.length - 20)).take 4
      = EncodeFixed32 ((encodeHandles ((UnitHandleBlockBuilder.new policy sink offset E A
          N).unitHandles keys)).flatten.length % 2 ^ 32) ∧
    (∀ r, UnitHandleBlockReader.new port rpolicy file options
        ((UnitHandleBlockBuilder.new policy sink offset E A N).Finish keys).1 loaded_number = some r →
      r.expiredTime_ = E ∧ r.access_frequnecy_ = A ∧ ∀ t, (r.IsCold t = true ↔ E ≤ t)) ∧
    ∃ r, UnitHandleBlockReader.new port rpolicy file options
        ((UnitHandleBlockBuilder.new policy sink offset E A N).Finish keys).1 0 = some r := by
  rw [Finish_eq_layout, layout_eq_footer]
  obtain ⟨b1, b2, b3⟩ := footer_bytes
    ((encodeHandles ((UnitHandleBlockBuilder.new policy sink offset E A N).unitHandles
        keys)).flatten ++ ((recordOffsets 0 (encodeHandles ((UnitHandleBlockBuilder.new policy sink
          offset E A N).unitHandles keys))).map EncodeFixed32).flatten)
    ((encodeHandles ((UnitHandleBlockBuilder.new policy sink offset E A N).unitHandles
        keys)).flatten.length % 2 ^ 32) E A
  obtain ⟨f1, f2, _⟩ := footer_reads
    ((encodeHandles ((UnitHandleBlockBuilder.new policy sink offset E A N).unitHandles
        keys)).flatten ++ ((recordOffsets 0 (encodeHandles ((UnitHandleBlockBuilder.new policy sink
          offset E A N).unitHandles keys))).map EncodeFixed32).flatten)
    ((encodeHandles ((UnitHandleBlockBuilder.new policy sink offset E A N).unitHandles
        keys)).flatten.length % 2 ^ 32) E A
  refine ⟨b1, b2, b3, ?_, ?_⟩
  · intro r hr
    obtain ⟨af, et, ao, s, g1, g2, _, hl⟩ := new_some _ _ _ _ _ _ _ hr
    rw [f1] at g1
    rw [f2] at g2
    cases g1
    cases g2
    have hfr := LoadUnits_frame _ _ _ _ _ hl
    have he : r.expiredTime_ = E := by rw [hfr.expired]; exact Nat.mod_eq_of_lt hE
    refine ⟨he, ?_, ?_⟩
    · rw [hfr.freq]; exact Nat.mod_eq_of_lt hA
    · intro t
      unfold UnitHandleBlockReader.IsCold
      rw [he]
      simp
  · obtain ⟨r, hr, _⟩ := new_zero_of_length port rpolicy file options _
      (by simp only [List.length_append, EncodeFixed32_length, EncodeFixed64_length]; omega :
        20 ≤ (((encodeHandles ((UnitHandleBlockBuilder.new policy sink offset E A N).unitHandles
          keys)).flatten ++ ((recordOffsets 0 (encodeHandles ((UnitHandleBlockBuilder.new policy
          sink offset E A N).unitHandles keys))).map EncodeFixed32).flatten)
          ++ EncodeFixed32 ((encodeHandles ((UnitHandleBlockBuilder.new policy sink offset E A
          N).unitHandles keys)).flatten.length % 2 ^ 32) ++ EncodeFixed64 E
          ++ EncodeFixed64 A).length)
    exact ⟨r, hr⟩

/-- Claim C16 at a concrete input: the last 8 bytes of the sample buffer encode the seed 7. -/
theorem C16_footer_temperature_round_trip_witness :
    sampleFinish.1.drop (sampleFinish.1.length - 8) = EncodeFixed64 7 :=
  (C16_footer_temperature_round_trip TestLenFilter (StringSink []) 0 1000 7 2 [[1, 2, 3], [4]]
    NoSnappy TestLenFilter (StringSource []) ⟨true, false⟩ 0 (by decide) (by decide)).1

/-- Claim C17 (`LoadUnits` stops at the first read error without rollback). For every reader
state and `n` with `loaded_count + n ≤ unit_count`: when the reads of the call for the indices
`0 .. j-1` succeed with block contents `cs 0 .. cs (j-1)` and the read for index `j < n` fails
with status `s`, then `LoadUnits(n)` returns `s`, the loaded count has grown by exactly `j`,
the loaded sequence is the previous one followed by the `j` bitmaps read, and exactly `j + 1`
reads were issued to the file. -/
theorem C17_LoadUnits_stops_at_first_error (port : Port) (r : UnitHandleBlockReader) (n : Int)
    (j : Nat) (cs : Nat → BlockContents) (s : Status) (c : BlockContents)
    (hle : r.filter_unit_loaded_number_ + n ≤ r.filter_unit_number_) (hj : (j : Int) < n)
    (hok : ∀ k, k < j → r.readUnit port (k : Int) = some (Status.OK, cs k))
    (hfail : r.readUnit port (j : Int) = some (s, c)) (hs : s.ok = false) :
    ∃ r1, UnitHandleBlockReader.LoadUnits port r n = some (s, r1) ∧
      r1.ReturnLoadedUnitsNumber = r.ReturnLoadedUnitsNumber + (j : Int) ∧
      r1.bitmaps_ = r.bitmaps_ ++ (List.range j).map (fun k => (cs k).data) ∧
      r1.file_.reads_.length = r.file_.reads_.length + (j + 1) := by
  obtain ⟨r1, g1, g2, g3, g4⟩ := LoadUnits_loop_fail port cs s c hs j n.toNat 0 r (by omega)
    (by intro k hk; simpa using hok k hk) (by simpa using hfail)
  refine ⟨r1, ?_, g3, ?_, g4⟩
  · unfold UnitHandleBlockReader.LoadUnits
    rw [if_neg (by
      have := addInt32_le_of_pos r.filter_unit_loaded_number_ n r.filter_unit_number_
        (by omega) hle
      omega)]
    simpa using g1
  · rw [g2, List.range_eq_range']

/-- Claim C17 at a concrete input: over a file that holds only the block of unit 0,
`LoadUnits(2)` loads unit 0, fails on the second read and keeps the one bitmap. -/
theorem C17_LoadUnits_stops_at_first_error_witness :
    ∃ r1, UnitHandleBlockReader.LoadUnits NoSnappy sampleTruncated 2
        = some (Status.InvalidArgument "invalid Read offset", r1) ∧
      r1.ReturnLoadedUnitsNumber = sampleTruncated.ReturnLoadedUnitsNumber + ((1 : Nat) : Int) ∧
      r1.bitmaps_ = sampleTruncated.bitmaps_
        ++ (List.range 1).map (fun k => ((fun _ => ⟨[3, 1], true, true⟩ : Nat → BlockContents) k).data) ∧
      r1.file_.reads_.length = sampleTruncated.file_.reads_.length + (1 + 1) :=
  C17_LoadUnits_stops_at_first_error NoSnappy sampleTruncated 2 1 (fun _ => ⟨[3, 1], true, true⟩)
    (Status.InvalidArgument "invalid Read offset") BlockContents.init (by decide) (by decide)
    (by
      intro k hk
      have : k = 0 := by omega
      subst this
      decide)
    (by decide) (by decide)

/-- Claim C18 (unit blocks are contiguous and the shared offset stays in sync). For a fresh
builder whose shared offset counter is the 64-bit value `o` and whose sink lets the `2 N`
appends succeed, and a non-empty key list: the handle recorded for unit `i < N` is
`(o + sum over j < i of (len(bitmap_j) + 5), len(bitmap_i))`, the sink has received, after
what it held, for each unit in order its bitmap followed by the 5-byte trailer (tag 0, masked
CRC-32C of bitmap and tag), the shared offset counter ends at
`o + sum over all i of (len(bitmap_i) + 5)`, all in 64-bit arithmetic, and the returned
buffer is the layout of these handles. -/
theorem C18_contiguous_unit_blocks (policy : FilterPolicy) (sink : WritableFile)
    (o E A : Nat) (N : Int) (keys : List Bytes)
    (hkeys : keys ≠ []) (ho : o < 2 ^ 64) (hacc : sink.accepts (2 * N.toNat)) :
    (∀ i : Nat, (i : Int) < N →
      ((UnitHandleBlockBuilder.new policy sink o E A N).unitHandles keys)[i]?
        = some ⟨unitBlockOffset policy keys o i % 2 ^ 64,
                (unitBitmap policy keys (i : Int)).length % 2 ^ 64⟩) ∧
    ((UnitHandleBlockBuilder.new policy sink o E A N).Finish keys).2.file_.contents_
      = sink.contents_ ++ ((List.range N.toNat).map
          (fun i : Nat => rawBlock (unitBitmap policy keys (i : Int)) kNoCompression)).flatten ∧
    ((UnitHandleBlockBuilder.new policy sink o E A N).Finish keys).2.offset_
      = unitBlockOffset policy keys o N.toNat % 2 ^ 64 ∧
    ((UnitHandleBlockBuilder.new policy sink o E A N).Finish keys).1
      = layout (encodeHandles ((UnitHandleBlockBuilder.new policy sink o E A N).unitHandles keys))
          E A := by
  have hk0 : keys.length ≠ 0 := by simpa using hkeys
  obtain ⟨g1, g2, g3⟩ := loop_contiguous keys N.toNat 0
    (UnitHandleBlockBuilder.new policy sink o E A N) rfl rfl hacc ho
  have hH : (UnitHandleBlockBuilder.new policy sink o E A N).unitHandles keys
      = WriteBitmap.handles keys N.toNat 0 (UnitHandleBlockBuilder.new policy sink o E A N) := by
    simp [UnitHandleBlockBuilder.unitHandles, hk0, UnitHandleBlockBuilder.new]
  refine ⟨?_, ?_, ?_, Finish_eq_layout policy sink o E A N keys⟩
  · intro i hi
    have hlen := handles_length keys N.toNat 0 (UnitHandleBlockBuilder.new policy sink o E A N)
    have hil : i < (WriteBitmap.handles keys N.toNat 0
        (UnitHandleBlockBuilder.new policy sink o E A N)).length := by rw [hlen]; omega
    have hget := List.getElem?_eq_getElem hil
    rw [hH, hget]
    have := g3 i _ hget
    simp only [Nat.cast_zero, Nat.cast_ofNat] at this
    rw [this]
    simp [unitBlockOffset, UnitHandleBlockBuilder.new, List.range_eq_range']
  · have : ((UnitHandleBlockBuilder.new policy sink o E A N).Finish keys).2.file_.contents_
        = (WriteBitmap.loop keys N.toNat 0
            (UnitHandleBlockBuilder.new policy sink o E A N)).file_.contents_ := by
      simp [UnitHandleBlockBuilder.Finish, UnitHandleBlockBuilder.WriteBitmap, hk0,
        WritableFile.Sync, UnitHandleBlockBuilder.new]
    rw [this]
    have g1' := g1
    simp only [Nat.cast_zero] at g1'
    rw [g1']
    simp [UnitHandleBlockBuilder.new, List.range_eq_range']
  · have : ((UnitHandleBlockBuilder.new policy sink o E A N).Finish keys).2.offset_
        = (WriteBitmap.loop keys N.toNat 0
            (UnitHandleBlockBuilder.new policy sink o E A N)).offset_ := by
      simp [UnitHandleBlockBuilder.Finish, UnitHandleBlockBuilder.WriteBitmap, hk0,
        UnitHandleBlockBuilder.new]
    rw [this]
    have g2' := g2
    simp only [Nat.cast_zero] at g2'
    rw [g2']
    simp [unitBlockOffset, UnitHandleBlockBuilder.new, List.range_eq_range']

/-- Claim C18 at a concrete input: after the two sample units (2 + 5 bytes each, from
offset 0) the shared offset counter is 14 and unit 1 is recorded at (7, 2). -/
theorem C18_contiguous_unit_blocks_witness :
    sampleFinish.2.offset_ = 14 ∧
    ((UnitHandleBlockBuilder.new TestLenFilter (StringSink []) 0 1000 7 2).unitHandles
      [[1, 2, 3], [4]])[1]? = some ⟨7, 2⟩ := by
  have h := C18_contiguous_unit_blocks TestLenFilter (StringSink []) 0 1000 7 2 [[1, 2, 3], [4]]
    (by decide) (by decide) (fun q hq => nomatch hq)
  refine ⟨?_, ?_⟩
  · exact h.2.2.1.trans (by decide)
  · exact (h.1 1 (by decide)).trans (by decide)

/-- Claim C19 evaluated on the code. The invariant `0 ≤ loaded_count ≤ unit_count` and
`ReturnLoadedUnitsNumber() =` length of the loaded sequence holds for a constructed reader
whose unit count is non-negative, is kept by every `EvictUnits(n)` (any machine integer `n`)
and by every `LoadUnits(n)` that returns, with success or with an error, as long as the sum
`loaded_count + n` of the guard is a value of `int`. With a loaded count of 2 of 2 units
(the invariant holds) and `n = 2147483647` that sum wraps to `-2147483647`, the guard does not
fire and one more bitmap is loaded before the next read fails: the call returns with a loaded
count of 3, a unit count of 2. -/
theorem C19_loaded_count_overflow :
    (∀ (port : Port) (policy : FilterPolicy) (file : RandomAccessFile) (options : ReadOptions)
        (contents : Bytes) (loaded_number : Int) (r : UnitHandleBlockReader),
      UnitHandleBlockReader.new port policy file options contents loaded_number = some r →
      0 ≤ r.ReturnUnitsNumber → r.LoadedInv) ∧
    (∀ (port : Port) (r : UnitHandleBlockReader) (n : Int), r.LoadedInv →
      r.filter_unit_loaded_number_ + n < 2 ^ 31 →
      ∀ p ∈ UnitHandleBlockReader.LoadUnits port r n, p.2.LoadedInv) ∧
    (∀ (r : UnitHandleBlockReader) (n : Int), r.LoadedInv → n < 2 ^ 64 →
      (r.EvictUnits n).LoadedInv) ∧
    addInt32 2 2147483647 = -2147483647 ∧
    (UnitHandleBlockReader.LoadUnits NoSnappy sampleTruncated 1).bind (fun p =>
      (UnitHandleBlockReader.LoadUnits NoSnappy p.2 1).map (fun q =>
        (p.1, q.1, q.2.ReturnLoadedUnitsNumber, q.2.ReturnUnitsNumber, q.2.bitmaps_.length)))
      = some (Status.OK, Status.OK, 2, 2, 2) ∧
    (UnitHandleBlockReader.LoadUnits NoSnappy sampleTruncated 1).bind (fun p =>
      (UnitHandleBlockReader.LoadUnits NoSnappy p.2 1).bind (fun q =>
        (UnitHandleBlockReader.LoadUnits NoSnappy q.2 2147483647).map (fun u =>
          (u.1, u.2.ReturnLoadedUnitsNumber, u.2.ReturnUnitsNumber, u.2.bitmaps_.length))))
      = some (Status.InvalidArgument "invalid Read offset", 3, 2, 3) := by
  refine ⟨?_, ?_, ?_, by decide, by decide, by decide⟩
  · intro port policy file options contents loaded_number r hr hcount
    obtain ⟨af, et, ao, s, _, _, _, hl⟩ := new_some port policy file options contents
      loaded_number r hr
    have hfr := LoadUnits_frame _ _ _ _ _ hl
    apply LoadUnits_inv port _ loaded_number s r _ ((addInt32_zero_left loaded_number).trans
      (Int.zero_add loaded_number).symm) hl
    unfold UnitHandleBlockReader.LoadedInv UnitHandleBlockReader.ReturnLoadedUnitsNumber
    unfold UnitHandleBlockReader.ReturnUnitsNumber at hcount
    rw [hfr.num] at hcount
    simp only [List.length_nil, Nat.cast_zero, le_refl, true_and, and_true]
    exact hcount
  · rintro port r n hinv hsum ⟨s, r1⟩ hp
    exact LoadUnits_inv port r n s r1 hinv (addInt32_of_nonneg _ _ hinv.1 hsum)
      (by simpa using hp)
  · intro r n hinv hn
    exact EvictUnits_inv r n hn hinv

/-- Claim C19 at a concrete input without overflow: the sample reader satisfies the invariant
and keeps it through `EvictUnits(5)`. -/
theorem C19_loaded_count_overflow_witness : (sampleLoaded.EvictUnits 5).LoadedInv :=
  C19_loaded_count_overflow.2.2.1 sampleLoaded 5 ⟨by decide, by decide, by decide⟩ (by decide)

/-- Claim C20 (`EvictUnits` with a negative count clears everything). For every reader state
(with fewer than `2^63` loaded bitmaps, as any vector has) and every negative `int` `n`, the
comparison of the sequence length with `n` converted to `size_t` fails, so `EvictUnits(n)`
takes the clear branch: the loaded sequence is empty and the loaded count is 0. -/
theorem C20_EvictUnits_negative_clears (r : UnitHandleBlockReader) (n : Int) (hneg : n < 0)
    (hint : -(2 ^ 31) ≤ n) (hsize : r.bitmaps_.length < 2 ^ 63) :
    ¬ ((r.bitmaps_.length : Int) > n % 2 ^ 64) ∧
    (r.EvictUnits n).bitmaps_ = [] ∧ (r.EvictUnits n).ReturnLoadedUnitsNumber = 0 := by
  have hc : ¬ ((r.bitmaps_.length : Int) > n % 2 ^ 64) := by omega
  refine ⟨hc, ?_, ?_⟩
  · unfold UnitHandleBlockReader.EvictUnits
    rw [if_neg hc]
  · unfold UnitHandleBlockReader.EvictUnits
    rw [if_neg hc]
    rfl

/-- Claim C20 at a concrete input: `EvictUnits(-1)` empties the sample reader. -/
theorem C20_EvictUnits_negative_clears_witness :
    (sampleLoaded.EvictUnits (-1)).bitmaps_ = [] ∧
    (sampleLoaded.EvictUnits (-1)).ReturnLoadedUnitsNumber = 0 :=
  (C20_EvictUnits_negative_clears sampleLoaded (-1) (by decide) (by decide) (by decide)).2

end leveldb
